import Mathlib

/-! Vidhyartham site script (`src/app.js`): navigation controller and contact-form
validation.

A shallow embedding of the parts of `app.js` the specification talks about:

* the DOM is a list of elements in document order, an element reference is its index;
* the session history is a zipper (entries behind, the current entry, entries ahead);
* `setTimeout` is a list of pending timers in registration order together with a clock;
* `PageManager` and the `DOMContentLoaded` handler are state transformers;
* the two validation regular expressions are anchored sequences of quantified
  character classes, matched by exhaustive splitting.
-/

namespace Vidhyartham

/-! ## DOM -/

/-- The three inline style properties that `PageManager.animatePageTransition` writes. -/
structure Style where
  opacity : String
  transform : String
  transition : String
  deriving DecidableEq, Repr

/-- A DOM element: its `id` attribute (the empty string when absent), its class list,
its `data-page` attribute (`none` when absent) and its inline style. -/
structure Element where
  id : String
  classes : List String
  dataPage : Option String
  style : Style
  deriving DecidableEq, Repr

/-- The document: its elements in document order. -/
abbrev Document := List Element

/-- Membership test `el.classList.contains(c)`. -/
def Element.hasClass (e : Element) (c : String) : Bool := decide (c ∈ e.classes)

/-- Token removal `el.classList.remove(c)`. -/
def Element.classRemove (c : String) (e : Element) : Element :=
  { e with classes := e.classes.filter (fun x => decide (x ≠ c)) }

/-- Token insertion `el.classList.add(c)`: a token already present is not added again. -/
def Element.classAdd (c : String) (e : Element) : Element :=
  if c ∈ e.classes then e else { e with classes := e.classes ++ [c] }

/-- Apply `f` to the element at index `i`, leaving the others alone. -/
def modifyAt (f : Element → Element) : Nat → Document → Document
  | _, [] => []
  | 0, e :: es => f e :: es
  | n + 1, e :: es => e :: modifyAt f n es

/-- Run `f` on each of the listed elements in turn (`nodeList.forEach`). -/
def forEachAt (f : Element → Element) (idxs : List Nat) (doc : Document) : Document :=
  idxs.foldl (fun d i => modifyAt f i d) doc

/-- Index of the first element satisfying `p`. -/
def indexWhere (p : Element → Bool) : Document → Option Nat
  | [] => none
  | e :: es => if p e then some 0 else (indexWhere p es).map (· + 1)

/-- Lookup `document.getElementById(id)`: the first element in document order whose id is
`id`; the empty string identifies nothing. -/
def getElementById (doc : Document) (id : String) : Option Nat :=
  if id = "" then none else indexWhere (fun e => decide (e.id = id)) doc

/-- Indices, from `base` on, of the elements satisfying `p`. -/
def indicesWhere (p : Element → Bool) : Document → Nat → List Nat
  | [], _ => []
  | e :: es, base => if p e then base :: indicesWhere p es (base + 1)
                     else indicesWhere p es (base + 1)

/-- Query `document.querySelectorAll('.' + cls)`: all elements carrying class `cls`,
in document order. -/
def querySelectorAll (doc : Document) (cls : String) : List Nat :=
  indicesWhere (fun e => e.hasClass cls) doc 0

/-! ## Session history -/

/-- A session-history entry: the state object given to `pushState`/`replaceState`
(`none` is `null`, `some p` is `{ page: p }`) and the URL fragment, `#` included. -/
structure HistoryEntry where
  state : Option String
  url : String
  deriving DecidableEq, Repr

/-- The session history: entries behind the current one (nearest first), the current
entry, and entries ahead of it (nearest first). -/
structure History where
  back : List HistoryEntry
  current : HistoryEntry
  forward : List HistoryEntry
  deriving DecidableEq, Repr

/-- Call `history.replaceState(state, '', url)`: overwrite the current entry. -/
def History.replaceState (h : History) (state : Option String) (url : String) : History :=
  { h with current := ⟨state, url⟩ }

/-- Call `history.pushState(state, '', url)`: the entries ahead are dropped and a new
entry becomes the current one. -/
def History.pushState (h : History) (state : Option String) (url : String) : History :=
  { back := h.current :: h.back, current := ⟨state, url⟩, forward := [] }

/-- Getter `window.location.hash`: the fragment of the current URL with its `#`, or the
empty string when the fragment is empty. -/
def History.locationHash (h : History) : String :=
  if h.current.url = "#" then "" else h.current.url

/-- All entries of the session history, oldest first. -/
def History.entries (h : History) : List HistoryEntry :=
  h.back.reverse ++ h.current :: h.forward

/-! ## Timers -/

/-- The timer callbacks registered by the navigation code. -/
inductive Callback where
  /-- First callback of `animatePageTransition`: start the fade/slide-in (after 50ms). -/
  | fadeIn (el : Nat)
  /-- Second callback of `animatePageTransition`: clear the transition (after 500ms). -/
  | cleanup (el : Nat)
  /-- Callback of the `DOMContentLoaded` handler: `navigateToPage(hash, false)` (after 100ms). -/
  | initialNav (hash : String)
  deriving DecidableEq, Repr

/-- A pending timer: the time it is due and its callback. -/
structure Timer where
  due : Nat
  cb : Callback
  deriving DecidableEq, Repr

/-! ## Page state -/

/-- Everything the navigation code reads or writes: the document, the two `PageManager`
fields, the session history, the vertical scroll target, the clock (in ms) and the pending
timers in registration order. -/
structure State where
  doc : Document
  currentPage : String
  pages : List Nat
  history : History
  scrollTop : Nat
  now : Nat
  timers : List Timer
  deriving DecidableEq, Repr

/-- Call `setTimeout(cb, delay)`. -/
def setTimeout (s : State) (cb : Callback) (delay : Nat) : State :=
  { s with timers := s.timers ++ [⟨s.now + delay, cb⟩] }

/-! ## PageManager -/

/-- Method `PageManager.showPage`: add `active` to the element with this id, if there is one. -/
def showPage (doc : Document) (pageId : String) : Document :=
  match getElementById doc pageId with
  | some i => modifyAt (Element.classAdd "active") i doc
  | none => doc

/-- The pre-transition pose written by `animatePageTransition`. -/
def poseHidden (e : Element) : Element :=
  { e with style := { e.style with opacity := "0", transform := "translateY(20px)" } }

/-- The style written by the 50ms callback of `animatePageTransition`. -/
def poseShown (e : Element) : Element :=
  { e with style := { transition := "opacity 0.4s ease, transform 0.4s ease",
                      opacity := "1", transform := "translateY(0)" } }

/-- The style written by the 500ms callback of `animatePageTransition`. -/
def clearTransition (e : Element) : Element :=
  { e with style := { e.style with transition := "" } }

/-- Method `PageManager.animatePageTransition`; `none` is a null element. -/
def animatePageTransition (s : State) (pageElement : Option Nat) : State :=
  match pageElement with
  | none => s
  | some i =>
    let s1 := { s with doc := modifyAt poseHidden i s.doc }
    let s2 := setTimeout s1 (Callback.fadeIn i) 50
    setTimeout s2 (Callback.cleanup i) 500

/-- Body of the `.nav-link` loop in `navigateToPage`. -/
def navLinkUpdate (targetPage : String) (link : Element) : Element :=
  let l := Element.classRemove "active" link
  if l.dataPage = some targetPage then Element.classAdd "active" l else l

/-- Method `PageManager.navigateToPage(targetPage, addToHistory)`; callers that omit the
second argument get `true`. -/
def navigateToPage (s : State) (targetPage : String) (addToHistory : Bool) : State :=
  if targetPage = s.currentPage then s else
  let d1 := forEachAt (Element.classRemove "active") s.pages s.doc
  let d2 := showPage d1 targetPage
  let d3 := forEachAt (navLinkUpdate targetPage) (querySelectorAll d2 "nav-link") d2
  let h := if addToHistory then s.history.pushState (some targetPage) ("#" ++ targetPage)
           else s.history
  let s1 := { s with doc := d3, currentPage := targetPage, history := h, scrollTop := 0 }
  animatePageTransition s1 (getElementById d3 targetPage)

/-- The `popstate` listener installed by `PageManager.init`; `st` is `e.state`. -/
def onPopState (s : State) (st : Option String) : State :=
  let page := match st with
    | some p => p
    | none => "home"
  navigateToPage s page false

/-- Constructor `new PageManager()` including `init()`, run on a document and a session
history; the clock starts at `now`. -/
def PageManager.new (doc : Document) (h : History) (now : Nat) (scrollTop : Nat)
    (timers : List Timer) : State :=
  { doc := showPage doc "home"
    currentPage := "home"
    pages := querySelectorAll doc "page"
    history := h.replaceState (some "home") "#home"
    scrollTop := scrollTop
    now := now
    timers := timers }

/-- The click listener that `PageManager.init` installs on every `[data-page]` element,
for a click on the element at index `i`: navigate to the value of its `data-page`
attribute when that value is non-empty. -/
def onClick (s : State) (i : Nat) : State :=
  match s.doc[i]? with
  | some e =>
    match e.dataPage with
    | some targetPage => if targetPage ≠ "" then navigateToPage s targetPage true else s
    | none => s
  | none => s

/-- The browser's back traversal: when there is an entry behind, it becomes the current
one and a `popstate` event carrying its state is dispatched; otherwise nothing happens. -/
def historyBack (s : State) : State :=
  match s.history.back with
  | [] => s
  | e :: rest =>
    onPopState
      { s with history := { back := rest, current := e,
                            forward := s.history.current :: s.history.forward } }
      e.state

/-! ## Event loop -/

/-- Run a timer callback. -/
def runCallback (s : State) : Callback → State
  | Callback.fadeIn i => { s with doc := modifyAt poseShown i s.doc }
  | Callback.cleanup i => { s with doc := modifyAt clearTransition i s.doc }
  | Callback.initialNav hash => navigateToPage s hash false

/-- Split off the timer that fires next: the least due time, the earliest registered
among equals. -/
def pickNext : List Timer → Option (Timer × List Timer)
  | [] => none
  | t :: ts =>
    match pickNext ts with
    | none => some (t, [])
    | some (u, rest) => if t.due ≤ u.due then some (t, ts) else some (u, t :: rest)

/-- Fire the next timer, if any is pending: the clock moves to its due time (never
backwards) and its callback runs. -/
def fireNext (s : State) : Option State :=
  match pickNext s.timers with
  | none => none
  | some (t, rest) => some (runCallback { s with timers := rest, now := max s.now t.due } t.cb)

/-- Number of timer firings a callback can account for: itself and the timers it registers. -/
def Callback.cost : Callback → Nat
  | Callback.initialNav _ => 3
  | _ => 1

/-- Bound on the number of firings needed to empty a list of pending timers. -/
def timersCost (ts : List Timer) : Nat := (ts.map (fun t => t.cb.cost)).sum

/-- Fire pending timers in order, at most `fuel` of them. -/
def drain : Nat → State → State
  | 0, s => s
  | fuel + 1, s =>
    match fireNext s with
    | none => s
    | some s1 => drain fuel s1

/-- Let every pending timer fire, those registered on the way included. -/
def runAllTimers (s : State) : State := drain (timersCost s.timers) s

/-- Fire, in order and at most `fuel` of them, the pending timers due before `limit`
(or at `limit` too when `inclusive`). -/
def drainUntil (limit : Nat) (inclusive : Bool) : Nat → State → State
  | 0, s => s
  | fuel + 1, s =>
    match pickNext s.timers with
    | none => s
    | some (t, _) =>
      if t.due < limit ∨ (inclusive = true ∧ t.due = limit) then
        match fireNext s with
        | none => s
        | some s1 => drainUntil limit inclusive fuel s1
      else s

/-- Let `dt` milliseconds pass: the timers due in that span fire in order, and the clock
ends `dt` later. A timer due exactly at the end fires within the span when `inclusive`. -/
def elapse (dt : Nat) (inclusive : Bool) (s : State) : State :=
  let limit := s.now + dt
  let s1 := drainUntil limit inclusive (timersCost s.timers) s
  { s1 with now := max s1.now limit }

/-- A run of `animatePageTransition` calls on one element: each call happens `dt`
milliseconds after the previous event, `(dt, inclusive)` being the span as in `elapse`. -/
def transitionsOn (i : Nat) : List (Nat × Bool) → State → State
  | [], s => s
  | (dt, inclusive) :: rest, s =>
    transitionsOn i rest (animatePageTransition (elapse dt inclusive s) (some i))

/-! ## Startup -/

/-- The part of the `DOMContentLoaded` handler that concerns navigation: construct the
`PageManager`, then read `window.location.hash.substring(1)` and, when it is one of the
three known identifiers, register the 100ms timer. -/
def domContentLoaded (doc : Document) (h : History) (now : Nat) (scrollTop : Nat)
    (timers : List Timer) : State :=
  let s := PageManager.new doc h now scrollTop timers
  let hash := s.history.locationHash.drop 1
  if hash ≠ "" ∧ hash ∈ ["home", "services", "contact"] then
    setTimeout s (Callback.initialNav hash) 100
  else s

/-! ## Examples -/

/-- A style with nothing set. -/
def Style.none : Style := ⟨"", "", ""⟩

/-- A section container as the markup declares it. -/
def section_ (id : String) (active : Bool) : Element :=
  ⟨id, if active then ["page", "active"] else ["page"], Option.none, Style.none⟩

/-- A navigation link pointing at `target`. -/
def navLink (target : String) (active : Bool) : Element :=
  ⟨"", if active then ["nav-link", "active"] else ["nav-link"], some target, Style.none⟩

/-- The site's document: three navigation links and the three sections, home shown. -/
def siteDoc : Document :=
  [navLink "home" true, navLink "services" false, navLink "contact" false,
   section_ "home" true, section_ "services" false, section_ "contact" false]

/-- A fresh session history whose only entry is the loaded URL with fragment `frag`. -/
def freshHistory (frag : String) : History := ⟨[], ⟨Option.none, frag⟩, []⟩

/-! ## Vocabulary of the properties -/

/-- What the navigation code reads of an element but never writes: its id, whether it is
a `.page` container, whether it is a `.nav-link`, and its `data-page` attribute. -/
def Element.shape (e : Element) : String × Bool × Bool × Option String :=
  (e.id, e.hasClass "page", e.hasClass "nav-link", e.dataPage)

/-- Two documents with the same elements up to the `active` marker and the inline styles. -/
def SameShape (d d1 : Document) : Prop := d.map Element.shape = d1.map Element.shape

/-- Whether the element at index `j` carries the `active` marker. -/
def activeAt (d : Document) (j : Nat) : Bool :=
  match d[j]? with
  | some e => e.hasClass "active"
  | none => false

/-- Whether the element at index `j` is a `.page` section container. -/
def isPageAt (d : Document) (j : Nat) : Bool :=
  match d[j]? with
  | some e => e.hasClass "page"
  | none => false

/-- The identifier `t` names a section: `getElementById(t)` is a `.page` container. -/
def isSection (d : Document) (t : String) : Bool :=
  match getElementById d t with
  | some i => isPageAt d i
  | none => false

/-- Section containers and navigation triggers are different elements: no `.page`
container is itself a `.nav-link`. -/
def TriggersApart (d : Document) : Prop :=
  ∀ e, e ∈ d → e.hasClass "page" = true → e.hasClass "nav-link" = false

instance (d : Document) : Decidable (TriggersApart d) := by
  unfold TriggersApart; infer_instance

/-- Exactly one `.page` container carries the `active` marker, and it is the container
that the identifier `p` names. -/
def OnlyActivePage (d : Document) (p : String) : Prop :=
  ∃ i, i < d.length ∧ getElementById d p = some i ∧ isPageAt d i = true ∧
    ∀ j, j < d.length → isPageAt d j = true → (activeAt d j = true ↔ j = i)

instance (d : Document) (p : String) : Decidable (OnlyActivePage d p) := by
  unfold OnlyActivePage; infer_instance

/-- No `.page` container carries the `active` marker. -/
def NoActivePage (d : Document) : Prop :=
  ∀ j, j < d.length → isPageAt d j = true → activeAt d j = false

instance (d : Document) : Decidable (NoActivePage d) := by
  unfold NoActivePage; infer_instance

/-- The states the page can be in: the state right after `new PageManager()` or after the
whole `DOMContentLoaded` handler, and from there any call of `navigateToPage`, a click on
a trigger, any `popstate` event, a back traversal, a timer firing, the passing of time and
the user scrolling. -/
inductive Reachable : State → Prop
  | construct (doc : Document) (h : History) (now scrollTop : Nat) (timers : List Timer) :
      Reachable (PageManager.new doc h now scrollTop timers)
  | startup (doc : Document) (h : History) (now scrollTop : Nat) (timers : List Timer) :
      Reachable (domContentLoaded doc h now scrollTop timers)
  | navigate {s : State} (t : String) (a : Bool) :
      Reachable s → Reachable (navigateToPage s t a)
  | click {s : State} (i : Nat) : Reachable s → Reachable (onClick s i)
  | popstate {s : State} (st : Option String) : Reachable s → Reachable (onPopState s st)
  | back {s : State} : Reachable s → Reachable (historyBack s)
  | timer {s s1 : State} : Reachable s → fireNext s = some s1 → Reachable s1
  | wait {s : State} (dt : Nat) (inclusive : Bool) :
      Reachable s → Reachable (elapse dt inclusive s)
  | scroll {s : State} (y : Nat) : Reachable s → Reachable { s with scrollTop := y }

/-- Run a sequence of `navigateToPage(t, addToHistory)` calls. -/
def navigateAll (s : State) (calls : List (String × Bool)) : State :=
  calls.foldl (fun st c => navigateToPage st c.1 c.2) s

/-- The element that `navigateToPage(t, _)` leaves at index `j`, in terms of the element
`e` that was there. -/
def navigatedElement (s : State) (t : String) (j : Nat) (e : Element) : Element :=
  let e1 := if j ∈ s.pages then Element.classRemove "active" e else e
  let e2 := if getElementById s.doc t = some j then Element.classAdd "active" e1 else e1
  let e3 := if e.hasClass "nav-link" = true then navLinkUpdate t e2 else e2
  if getElementById s.doc t = some j then poseHidden e3 else e3

/-- What every reachable state satisfies: `this.pages` is the document's set of `.page`
containers, and the element named by `currentPage`, if there is one and it is not a
`.nav-link`, carries the `active` marker. -/
def Inv (s : State) : Prop :=
  s.pages = querySelectorAll s.doc "page" ∧
  ∀ i e, getElementById s.doc s.currentPage = some i → s.doc[i]? = some e →
    e.hasClass "nav-link" = false → e.hasClass "active" = true

/-- The site's page right after `new PageManager()`, on a fresh session history. -/
def siteState : State := PageManager.new siteDoc (freshHistory "") 0 0 []

/-- A document whose markup marks a second section as active as well. -/
def twoActiveDoc : Document :=
  [section_ "home" true, section_ "services" true, section_ "contact" false]

/-- Whether a callback is one of the two `animatePageTransition` callbacks. -/
def Callback.isAnimation : Callback → Bool
  | Callback.fadeIn _ => true
  | Callback.cleanup _ => true
  | Callback.initialNav _ => false

/-- The inline style an element has once a transition has run to its end. -/
def Style.settled : Style := ⟨"1", "translateY(0)", ""⟩

/-- The pending timers are all `animatePageTransition` callbacks, none of them due more
than 500ms from now. -/
def AnimationTimersOnly (s : State) : Prop :=
  ∀ t, t ∈ s.timers → t.cb.isAnimation = true ∧ t.due ≤ s.now + 500

instance (s : State) : Decidable (AnimationTimersOnly s) := by
  unfold AnimationTimersOnly; infer_instance

/-- The element has reached the end pose of the fade/slide-in. -/
def Element.isShown (e : Element) : Prop :=
  e.style.opacity = "1" ∧ e.style.transform = "translateY(0)"

/-- A state from which the transition on element `i` settles when the pending timers fire:
only animation callbacks are pending, and either the last registered timer is a cleanup of
`i` due no earlier than every other one, with the element already shown or a fade-in of `i`
still pending; or nothing is pending and the element's style is the settled one. -/
def Settling (i : Nat) (s : State) : Prop :=
  (∀ t, t ∈ s.timers → t.cb.isAnimation = true) ∧
  ∃ e, s.doc[i]? = some e ∧
    ((∃ pre D, s.timers = pre ++ [⟨D, Callback.cleanup i⟩] ∧ (∀ t, t ∈ pre → t.due ≤ D) ∧
        (e.isShown ∨ ∃ t, t ∈ pre ∧ t.cb = Callback.fadeIn i)) ∨
      (s.timers = [] ∧ e.style = Style.settled))

/-! ## ContactForm -/

/-- JavaScript white space and line terminators: the characters `\s` matches and
`String.prototype.trim` strips. -/
def isJsSpace (c : Char) : Bool :=
  c.toNat = 0x09 || c.toNat = 0x0A || c.toNat = 0x0B || c.toNat = 0x0C || c.toNat = 0x0D ||
  c.toNat = 0x20 || c.toNat = 0xA0 || c.toNat = 0x1680 ||
  (0x2000 ≤ c.toNat && c.toNat ≤ 0x200A) ||
  c.toNat = 0x2028 || c.toNat = 0x2029 || c.toNat = 0x202F || c.toNat = 0x205F ||
  c.toNat = 0x3000 || c.toNat = 0xFEFF

/-- Method `String.prototype.trim`. -/
def jsTrim (s : String) : String :=
  ⟨((s.toList.dropWhile isJsSpace).reverse.dropWhile isJsSpace).reverse⟩

/-- One piece of a regular expression: a character class under a quantifier, to be matched
at least `min` times and, unless `max` is `none`, at most `max` times. -/
structure Piece where
  cls : Char → Bool
  min : Nat
  max : Option Nat

/-- Whether a repetition count respects the upper bound of a quantifier. -/
def withinMax : Option Nat → Nat → Bool
  | none, _ => true
  | some m, k => decide (k ≤ m)

/-- Method `RegExp.prototype.test` for a pattern `^p1 p2 ... pn$` made of quantified
character classes: the input matches when it splits into consecutive runs, one per piece,
each of a permitted length and drawn from the piece's class. Backtracking tries every
split, so does this. -/
def matchPieces : List Piece → List Char → Bool
  | [], cs => cs.isEmpty
  | p :: ps, cs =>
    (List.range (cs.length + 1)).any fun k =>
      decide (p.min ≤ k) && withinMax p.max k && (cs.take k).all p.cls &&
        matchPieces ps (cs.drop k)

/-- The class `[^\s@]`. -/
def notSpaceOrAt (c : Char) : Bool := !isJsSpace c && c != '@'

/-- The class `[\d\s\-\(\)]`. -/
def phoneChar (c : Char) : Bool :=
  ('0' ≤ c && c ≤ '9') || isJsSpace c || c == '-' || c == '(' || c == ')'

/-- The pattern `/^[^\s@]+@[^\s@]+\.[^\s@]+$/`. -/
def emailRegex : List Piece :=
  [⟨notSpaceOrAt, 1, none⟩, ⟨fun c => c == '@', 1, some 1⟩, ⟨notSpaceOrAt, 1, none⟩,
   ⟨fun c => c == '.', 1, some 1⟩, ⟨notSpaceOrAt, 1, none⟩]

/-- The pattern `/^[\+]?[\d\s\-\(\)]{10,}$/`. -/
def phoneRegex : List Piece :=
  [⟨fun c => c == '+', 0, some 1⟩, ⟨phoneChar, 10, none⟩]

/-- Method `ContactForm.isValidEmail`. -/
def isValidEmail (email : String) : Bool := matchPieces emailRegex email.toList

/-- Method `ContactForm.isValidPhone`. -/
def isValidPhone (phone : String) : Bool := matchPieces phoneRegex phone.toList

/-- A child node of a form group, as far as the validation code is concerned: its class
list, its text and the inline style text assigned to it. -/
structure Node where
  classes : List String
  textContent : String
  cssText : String
  deriving DecidableEq, Repr

/-- A form field together with its parent node: whether it has the `required` attribute,
its `type` and `value`, its inline border colour, and the other nodes under its parent in
document order (the nodes `parentNode.querySelector` searches and `appendChild` extends).
A field of the form always has a parent, and is not itself an `error-message` node. -/
structure Field where
  required : Bool
  type : String
  value : String
  borderColor : String
  parent : List Node
  deriving DecidableEq, Repr

/-- The `div` that `showFieldError` creates. -/
def errorDiv (message : String) : Node :=
  { classes := ["error-message"]
    textContent := message
    cssText := "\n            color: var(--color-error);\n            font-size: var(--font-size-sm);\n            margin-top: var(--space-4);\n            animation: fadeInUp 0.3s ease;\n        " }

/-- Method `ContactForm.showFieldError`. -/
def showFieldError (field : Field) (message : String) : Field :=
  { field with borderColor := "var(--color-error)", parent := field.parent ++ [errorDiv message] }

/-- Method `ContactForm.clearFieldError`: the first `.error-message` node under the parent,
if any, is removed, and the border colour is reset. -/
def clearFieldError (field : Field) : Field :=
  { field with borderColor := "",
               parent := field.parent.eraseP (fun n => decide ("error-message" ∈ n.classes)) }

/-- Method `ContactForm.validateField`: the boolean it returns and the field afterwards. -/
def validateField (field : Field) : Bool × Field :=
  let f := clearFieldError field
  if f.required = true ∧ jsTrim f.value = "" then
    (false, showFieldError f "This field is required")
  else if f.type = "email" ∧ f.value ≠ "" ∧ isValidEmail f.value = false then
    (false, showFieldError f "Please enter a valid email address")
  else if f.type = "tel" ∧ f.value ≠ "" ∧ isValidPhone f.value = false then
    (false, showFieldError f "Please enter a valid phone number")
  else (true, f)

/-- The shape `local@domain.tld` in the specification's words: no white space, exactly one
`@`, a non-empty part before it, and after it a part containing a `.` that is neither its
first nor its last character. -/
def EmailShape (s : String) : Prop :=
  (∀ c, c ∈ s.toList → isJsSpace c = false) ∧ s.toList.count '@' = 1 ∧
    ∃ l d, s.toList = l ++ '@' :: d ∧ l ≠ [] ∧
      ∃ k, 0 < k ∧ k + 1 < d.length ∧ d[k]? = some '.'

/-- The failing check that `validateField` reports first, as the specification orders them:
required-but-blank, then malformed email, then malformed phone number. -/
def firstFailure (field : Field) : Option String :=
  if field.required = true ∧ jsTrim field.value = "" then some "This field is required"
  else if field.type = "email" ∧ field.value ≠ "" ∧ isValidEmail field.value = false then
    some "Please enter a valid email address"
  else if field.type = "tel" ∧ field.value ≠ "" ∧ isValidPhone field.value = false then
    some "Please enter a valid phone number"
  else none

/-- A document whose `home` section container is itself a `.nav-link` (without a
`data-page` attribute), next to an ordinary `services` container. -/
def homeTriggerDoc : Document :=
  [⟨"home", ["page", "nav-link", "active"], Option.none, Style.none⟩, section_ "services" false]

/-- A document whose `services` section container is itself a `.nav-link` pointing at an
identifier, `ghost`, that no element has. -/
def ghostTriggerDoc : Document :=
  [section_ "home" true, ⟨"services", ["page", "nav-link"], some "ghost", Style.none⟩]

/-! # Theorems -/

/-! ## Document lemmas -/

theorem modifyAt_length (f : Element → Element) (i : Nat) (d : Document) :
    (modifyAt f i d).length = d.length := by
  induction d generalizing i with
  | nil => cases i <;> rfl
  | cons e es ih => cases i <;> simp [modifyAt, ih]

theorem getElem?_modifyAt (f : Element → Element) (i j : Nat) (d : Document) :
    (modifyAt f i d)[j]? = if j = i then (d[j]?).map f else d[j]? := by
  induction d generalizing i j with
  | nil => cases i <;> simp [modifyAt]
  | cons e es ih =>
    cases i with
    | zero => cases j <;> simp [modifyAt]
    | succ n => cases j <;> simp [modifyAt, ih]

theorem getElem?_forEachAt (f : Element → Element) (hf : ∀ e, f (f e) = f e)
    (idxs : List Nat) (d : Document) (j : Nat) :
    (forEachAt f idxs d)[j]? = if j ∈ idxs then (d[j]?).map f else d[j]? := by
  induction idxs generalizing d with
  | nil => simp [forEachAt]
  | cons i is ih =>
    have h := ih (modifyAt f i d)
    simp only [forEachAt, List.foldl_cons] at h ⊢
    rw [h, getElem?_modifyAt]
    by_cases hji : j = i
    · subst hji
      cases hd : d[j]? <;> simp [hf]
    · by_cases hm : j ∈ is <;> simp [hji, hm]

theorem indexWhere_eq_some (p : Element → Bool) (d : Document) (i : Nat) :
    indexWhere p d = some i ↔
      (∃ e, d[i]? = some e ∧ p e = true) ∧ ∀ j, j < i → ∀ e, d[j]? = some e → p e = false := by
  induction d generalizing i with
  | nil => simp [indexWhere]
  | cons a as ih =>
    by_cases hp : p a = true
    · simp only [indexWhere, hp, if_true]
      constructor
      · intro h
        have h0 : i = 0 := by simpa using h.symm
        subst h0
        simp [hp]
      · rintro ⟨_, h2⟩
        cases i with
        | zero => rfl
        | succ n => have := h2 0 (Nat.succ_pos n) a (by simp); simp [hp] at this
    · have hp1 : p a = false := by simpa using hp
      simp only [indexWhere, hp1, Bool.false_eq_true, if_false, Option.map_eq_some']
      constructor
      · rintro ⟨k, hk, rfl⟩
        obtain ⟨h1, h2⟩ := (ih k).1 hk
        refine ⟨by simpa using h1, ?_⟩
        intro j hj e he
        cases j with
        | zero => simp at he; subst he; exact hp1
        | succ m => exact h2 m (by omega) e (by simpa using he)
      · rintro ⟨⟨e, he, hpe⟩, h2⟩
        cases i with
        | zero => simp at he; subst he; simp [hp1] at hpe
        | succ n =>
          refine ⟨n, (ih n).2 ⟨⟨e, by simpa using he, hpe⟩, ?_⟩, rfl⟩
          intro j hj e1 he1
          exact h2 (j + 1) (by omega) e1 (by simpa using he1)

theorem indexWhere_eq_none (p : Element → Bool) (d : Document) :
    indexWhere p d = none ↔ ∀ e, e ∈ d → p e = false := by
  induction d with
  | nil => simp [indexWhere]
  | cons a as ih =>
    by_cases hp : p a = true
    · simp [indexWhere, hp]
    · have hp1 : p a = false := by simpa using hp
      simp [indexWhere, hp1, ih]

theorem mem_indicesWhere (p : Element → Bool) (d : Document) (base j : Nat) :
    j ∈ indicesWhere p d base ↔ base ≤ j ∧ ∃ e, d[j - base]? = some e ∧ p e = true := by
  induction d generalizing base with
  | nil => simp [indicesWhere]
  | cons a as ih =>
    by_cases hp : p a = true
    · simp only [indicesWhere, hp, if_true, List.mem_cons, ih]
      constructor
      · rintro (rfl | ⟨h1, e, he, hpe⟩)
        · exact ⟨le_rfl, a, by simp, hp⟩
        · refine ⟨by omega, e, ?_, hpe⟩
          have : j - base = (j - (base + 1)) + 1 := by omega
          rw [this]; simpa using he
      · rintro ⟨h1, e, he, hpe⟩
        by_cases hj : j = base
        · exact Or.inl hj
        · right
          refine ⟨by omega, e, ?_, hpe⟩
          have : j - base = (j - (base + 1)) + 1 := by omega
          rw [this] at he; simpa using he
    · have hp1 : p a = false := by simpa using hp
      simp only [indicesWhere, hp1, Bool.false_eq_true, if_false, ih]
      constructor
      · rintro ⟨h1, e, he, hpe⟩
        refine ⟨by omega, e, ?_, hpe⟩
        have : j - base = (j - (base + 1)) + 1 := by omega
        rw [this]; simpa using he
      · rintro ⟨h1, e, he, hpe⟩
        by_cases hj : j = base
        · subst hj; simp at he; subst he; simp [hp1] at hpe
        · refine ⟨by omega, e, ?_, hpe⟩
          have : j - base = (j - (base + 1)) + 1 := by omega
          rw [this] at he; simpa using he

theorem mem_querySelectorAll (d : Document) (c : String) (j : Nat) :
    j ∈ querySelectorAll d c ↔ ∃ e, d[j]? = some e ∧ e.hasClass c = true := by
  simp [querySelectorAll, mem_indicesWhere]

theorem indexWhere_congr (p : Element → Bool)
    (hp : ∀ e e1 : Element, e.shape = e1.shape → p e = p e1) (d d1 : Document)
    (h : SameShape d d1) : indexWhere p d = indexWhere p d1 := by
  induction d generalizing d1 with
  | nil =>
    cases d1 with
    | nil => rfl
    | cons b bs => simp [SameShape] at h
  | cons a as ih =>
    cases d1 with
    | nil => simp [SameShape] at h
    | cons b bs =>
      simp only [SameShape, List.map_cons, List.cons.injEq] at h
      simp [indexWhere, hp a b h.1, ih bs h.2]

theorem indicesWhere_congr (p : Element → Bool)
    (hp : ∀ e e1 : Element, e.shape = e1.shape → p e = p e1) (d d1 : Document) (base : Nat)
    (h : SameShape d d1) : indicesWhere p d base = indicesWhere p d1 base := by
  induction d generalizing d1 base with
  | nil =>
    cases d1 with
    | nil => rfl
    | cons b bs => simp [SameShape] at h
  | cons a as ih =>
    cases d1 with
    | nil => simp [SameShape] at h
    | cons b bs =>
      simp only [SameShape, List.map_cons, List.cons.injEq] at h
      simp [indicesWhere, hp a b h.1, ih bs (base + 1) h.2]

theorem getElementById_congr (d d1 : Document) (h : SameShape d d1) (t : String) :
    getElementById d t = getElementById d1 t := by
  unfold getElementById
  split
  · rfl
  · apply indexWhere_congr _ _ d d1 h
    intro e e1 he
    have : e.id = e1.id := congrArg Prod.fst he
    simp [this]

theorem querySelectorAll_page_congr (d d1 : Document) (h : SameShape d d1) :
    querySelectorAll d "page" = querySelectorAll d1 "page" := by
  apply indicesWhere_congr _ _ d d1 0 h
  intro e e1 he
  exact congrArg (fun x => x.2.1) he

theorem querySelectorAll_navLink_congr (d d1 : Document) (h : SameShape d d1) :
    querySelectorAll d "nav-link" = querySelectorAll d1 "nav-link" := by
  apply indicesWhere_congr _ _ d d1 0 h
  intro e e1 he
  exact congrArg (fun x => x.2.2.1) he

theorem SameShape.refl (d : Document) : SameShape d d := rfl

theorem SameShape.trans {a b c : Document} (h1 : SameShape a b) (h2 : SameShape b c) :
    SameShape a c := Eq.trans h1 h2

theorem SameShape.symm {a b : Document} (h : SameShape a b) : SameShape b a := Eq.symm h

theorem sameShape_modifyAt (f : Element → Element) (hf : ∀ e, (f e).shape = e.shape)
    (i : Nat) (d : Document) : SameShape (modifyAt f i d) d := by
  induction d generalizing i with
  | nil => cases i <;> rfl
  | cons e es ih =>
    cases i with
    | zero => simp [SameShape, modifyAt, hf]
    | succ n => simpa [SameShape, modifyAt] using ih n

theorem sameShape_forEachAt (f : Element → Element) (hf : ∀ e, (f e).shape = e.shape)
    (idxs : List Nat) (d : Document) : SameShape (forEachAt f idxs d) d := by
  induction idxs generalizing d with
  | nil => rfl
  | cons i is ih =>
    simp only [forEachAt, List.foldl_cons]
    exact (ih (modifyAt f i d)).trans (sameShape_modifyAt f hf i d)

/-! ## Elementary element updates -/

theorem hasClass_classRemove (c c1 : String) (e : Element) :
    (Element.classRemove c e).hasClass c1 = (e.hasClass c1 && decide (c1 ≠ c)) := by
  simp [Element.classRemove, Element.hasClass, List.mem_filter]

theorem hasClass_classAdd (c c1 : String) (e : Element) :
    (Element.classAdd c e).hasClass c1 = (e.hasClass c1 || decide (c1 = c)) := by
  unfold Element.classAdd
  split
  · rename_i h
    by_cases hc : c1 = c
    · subst hc; simp [Element.hasClass, h]
    · simp [hc]
  · simp [Element.hasClass]

theorem id_classRemove (c : String) (e : Element) : (Element.classRemove c e).id = e.id := rfl

theorem dataPage_classRemove (c : String) (e : Element) :
    (Element.classRemove c e).dataPage = e.dataPage := rfl

theorem style_classRemove (c : String) (e : Element) :
    (Element.classRemove c e).style = e.style := rfl

theorem id_classAdd (c : String) (e : Element) : (Element.classAdd c e).id = e.id := by
  unfold Element.classAdd; split <;> rfl

theorem dataPage_classAdd (c : String) (e : Element) :
    (Element.classAdd c e).dataPage = e.dataPage := by
  unfold Element.classAdd; split <;> rfl

theorem style_classAdd (c : String) (e : Element) :
    (Element.classAdd c e).style = e.style := by
  unfold Element.classAdd; split <;> rfl

theorem shape_classRemove_active (e : Element) :
    (Element.classRemove "active" e).shape = e.shape := by
  simp [Element.shape, hasClass_classRemove, id_classRemove, dataPage_classRemove]

theorem shape_classAdd_active (e : Element) :
    (Element.classAdd "active" e).shape = e.shape := by
  simp [Element.shape, hasClass_classAdd, id_classAdd, dataPage_classAdd]

theorem shape_navLinkUpdate (t : String) (e : Element) : (navLinkUpdate t e).shape = e.shape := by
  unfold navLinkUpdate
  simp only
  split
  · rw [shape_classAdd_active, shape_classRemove_active]
  · rw [shape_classRemove_active]

theorem shape_poseHidden (e : Element) : (poseHidden e).shape = e.shape := rfl

theorem shape_poseShown (e : Element) : (poseShown e).shape = e.shape := rfl

theorem shape_clearTransition (e : Element) : (clearTransition e).shape = e.shape := rfl

theorem classRemove_idem (c : String) (e : Element) :
    Element.classRemove c (Element.classRemove c e) = Element.classRemove c e := by
  simp [Element.classRemove, List.filter_filter]

theorem hasClass_navLinkUpdate_active (t : String) (e : Element) :
    (navLinkUpdate t e).hasClass "active" = decide (e.dataPage = some t) := by
  unfold navLinkUpdate
  simp only [dataPage_classRemove]
  split
  · rename_i h; simp [hasClass_classAdd, h]
  · rename_i h; simp [hasClass_classRemove, h]

theorem style_navLinkUpdate (t : String) (e : Element) : (navLinkUpdate t e).style = e.style := by
  unfold navLinkUpdate
  simp only
  split
  · rw [style_classAdd, style_classRemove]
  · rw [style_classRemove]

theorem navLinkUpdate_idem (t : String) (e : Element) :
    navLinkUpdate t (navLinkUpdate t e) = navLinkUpdate t e := by
  unfold navLinkUpdate
  simp only [dataPage_classRemove]
  by_cases h : e.dataPage = some t
  · simp only [h, if_true, dataPage_classAdd, dataPage_classRemove]
    simp [Element.classAdd, Element.classRemove, List.filter_filter]
  · simp only [h, if_false, dataPage_classRemove, classRemove_idem]

/-! ## Effect of the navigation methods on the document -/

theorem getElem?_showPage (d : Document) (t : String) (j : Nat) :
    (showPage d t)[j]? =
      if getElementById d t = some j then (d[j]?).map (Element.classAdd "active") else d[j]? := by
  unfold showPage
  cases h : getElementById d t with
  | none => simp
  | some i =>
    simp only [getElem?_modifyAt, Option.some.injEq]
    by_cases hji : j = i
    · simp [hji]
    · have : ¬ i = j := fun h => hji h.symm
      simp [hji, this]

theorem sameShape_showPage (d : Document) (t : String) : SameShape (showPage d t) d := by
  unfold showPage
  split
  · exact sameShape_modifyAt _ shape_classAdd_active _ _
  · exact SameShape.refl d

theorem doc_animatePageTransition (s : State) (el : Option Nat) :
    (animatePageTransition s el).doc =
      match el with
      | some i => modifyAt poseHidden i s.doc
      | none => s.doc := by
  cases el <;> rfl

theorem sameShape_animatePageTransition (s : State) (el : Option Nat) :
    SameShape (animatePageTransition s el).doc s.doc := by
  rw [doc_animatePageTransition]
  cases el with
  | none => exact SameShape.refl _
  | some i => exact sameShape_modifyAt _ shape_poseHidden _ _

theorem currentPage_animatePageTransition (s : State) (el : Option Nat) :
    (animatePageTransition s el).currentPage = s.currentPage := by
  cases el <;> rfl

theorem pages_animatePageTransition (s : State) (el : Option Nat) :
    (animatePageTransition s el).pages = s.pages := by
  cases el <;> rfl

theorem history_animatePageTransition (s : State) (el : Option Nat) :
    (animatePageTransition s el).history = s.history := by
  cases el <;> rfl

theorem sameShape_navigate_d1 (s : State) :
    SameShape (forEachAt (Element.classRemove "active") s.pages s.doc) s.doc :=
  sameShape_forEachAt _ shape_classRemove_active _ _

theorem sameShape_navigate_d2 (s : State) (t : String) :
    SameShape (showPage (forEachAt (Element.classRemove "active") s.pages s.doc) t) s.doc :=
  (sameShape_showPage _ t).trans (sameShape_navigate_d1 s)

theorem sameShape_navigate_d3 (s : State) (t : String) :
    SameShape
      (forEachAt (navLinkUpdate t)
        (querySelectorAll (showPage (forEachAt (Element.classRemove "active") s.pages s.doc) t)
          "nav-link")
        (showPage (forEachAt (Element.classRemove "active") s.pages s.doc) t)) s.doc :=
  (sameShape_forEachAt _ (shape_navLinkUpdate t) _ _).trans (sameShape_navigate_d2 s t)

theorem sameShape_navigateToPage (s : State) (t : String) (a : Bool) :
    SameShape (navigateToPage s t a).doc s.doc := by
  unfold navigateToPage
  split
  · exact SameShape.refl _
  · exact (sameShape_animatePageTransition _ _).trans (sameShape_navigate_d3 s t)

theorem pages_navigateToPage (s : State) (t : String) (a : Bool) :
    (navigateToPage s t a).pages = s.pages := by
  unfold navigateToPage
  split
  · rfl
  · rw [pages_animatePageTransition]

theorem currentPage_navigateToPage (s : State) (t : String) (a : Bool) :
    (navigateToPage s t a).currentPage = t := by
  unfold navigateToPage
  split
  · rename_i h; exact h.symm
  · rw [currentPage_animatePageTransition]

theorem history_navigateToPage (s : State) (t : String) (a : Bool) (h : t ≠ s.currentPage) :
    (navigateToPage s t a).history =
      if a = true then s.history.pushState (some t) ("#" ++ t) else s.history := by
  unfold navigateToPage
  rw [if_neg h, history_animatePageTransition]

theorem getElem?_navigateToPage (s : State) (t : String) (a : Bool) (h : t ≠ s.currentPage)
    (j : Nat) (e : Element) (he : s.doc[j]? = some e) :
    (navigateToPage s t a).doc[j]? = some (navigatedElement s t j e) := by
  have hd1 := sameShape_navigate_d1 s
  have hd2 := sameShape_navigate_d2 s t
  have hd3 := sameShape_navigate_d3 s t
  have g1 := getElementById_congr _ _ hd1 t
  have g3 := getElementById_congr _ _ hd3 t
  have q2 := querySelectorAll_navLink_congr _ _ hd2
  unfold navigateToPage
  rw [if_neg h, doc_animatePageTransition]
  simp only
  rw [g3, q2]
  have hnl : j ∈ querySelectorAll s.doc "nav-link" ↔ e.hasClass "nav-link" = true := by
    rw [mem_querySelectorAll]; simp [he]
  have core : (forEachAt (navLinkUpdate t) (querySelectorAll s.doc "nav-link")
        (showPage (forEachAt (Element.classRemove "active") s.pages s.doc) t))[j]? =
      some (if e.hasClass "nav-link" = true then navLinkUpdate t
          (if getElementById s.doc t = some j then Element.classAdd "active"
            (if j ∈ s.pages then Element.classRemove "active" e else e)
           else (if j ∈ s.pages then Element.classRemove "active" e else e))
        else (if getElementById s.doc t = some j then Element.classAdd "active"
            (if j ∈ s.pages then Element.classRemove "active" e else e)
           else (if j ∈ s.pages then Element.classRemove "active" e else e))) := by
    rw [getElem?_forEachAt _ (navLinkUpdate_idem t), getElem?_showPage, g1,
      getElem?_forEachAt _ (classRemove_idem "active"), he]
    by_cases h1 : e.hasClass "nav-link" = true <;> by_cases h2 : getElementById s.doc t = some j <;>
      by_cases h3 : j ∈ s.pages <;> simp [hnl, h1, h2, h3]
  unfold navigatedElement
  cases hg : getElementById s.doc t with
  | none => simpa [hg] using core
  | some i =>
    simp only [getElem?_modifyAt]
    by_cases hji : j = i
    · subst hji
      rw [if_pos rfl, core]
      simp [hg]
    · have hij : ¬ i = j := fun h => hji h.symm
      rw [if_neg hji, core]
      simp [hg, hij]

theorem hasClass_poseHidden (e : Element) (c : String) :
    (poseHidden e).hasClass c = e.hasClass c := rfl

theorem hasClass_active_navigatedElement (s : State) (t : String) (j : Nat) (e : Element) :
    (navigatedElement s t j e).hasClass "active" =
      if e.hasClass "nav-link" = true then decide (e.dataPage = some t)
      else if getElementById s.doc t = some j then true
      else if j ∈ s.pages then false else e.hasClass "active" := by
  unfold navigatedElement
  by_cases h1 : e.hasClass "nav-link" = true <;> by_cases h2 : getElementById s.doc t = some j <;>
    by_cases h3 : j ∈ s.pages <;>
    simp [h1, h2, h3, hasClass_poseHidden, hasClass_navLinkUpdate_active, hasClass_classAdd,
      hasClass_classRemove, dataPage_classAdd, dataPage_classRemove]

theorem SameShape.length_eq {d d1 : Document} (h : SameShape d d1) : d.length = d1.length := by
  have := congrArg List.length h
  simpa using this

theorem SameShape.shape_getElem? {d d1 : Document} (h : SameShape d d1) (j : Nat) :
    (d[j]?).map Element.shape = (d1[j]?).map Element.shape := by
  have := congrArg (fun l => l[j]?) h
  simpa [List.getElem?_map] using this

theorem SameShape.isPageAt_eq {d d1 : Document} (h : SameShape d d1) (j : Nat) :
    isPageAt d j = isPageAt d1 j := by
  have := h.shape_getElem? j
  unfold isPageAt
  cases h1 : d[j]? <;> cases h2 : d1[j]? <;> simp [h1, h2] at this ⊢
  exact congrArg (fun x => x.2.1) this

theorem SameShape.triggersApart {d d1 : Document} (h : SameShape d d1)
    (ht : TriggersApart d1) : TriggersApart d := by
  intro e he hp
  obtain ⟨j, hj?⟩ := List.getElem?_of_mem he
  have := h.shape_getElem? j
  rw [hj?] at this
  cases h2 : d1[j]? with
  | none => simp [h2] at this
  | some e1 =>
    simp only [h2, Option.map_some', Option.some.injEq] at this
    have hp1 : e1.hasClass "page" = true := by
      have := congrArg (fun x => x.2.1) this
      simp only [Element.shape] at this
      rw [← this]; exact hp
    have hn1 := ht e1 (List.getElem?_mem h2) hp1
    have := congrArg (fun x => x.2.2.1) this
    simp only [Element.shape] at this
    rw [this]; exact hn1

theorem isPageAt_iff_mem_pages (s : State) (h : s.pages = querySelectorAll s.doc "page")
    (j : Nat) : isPageAt s.doc j = true ↔ j ∈ s.pages := by
  rw [h, mem_querySelectorAll]
  unfold isPageAt
  cases s.doc[j]? <;> simp

/-- After a navigation that is not suppressed, a page container is marked active exactly
when it is the element the target names. -/
theorem activeAt_navigateToPage_page (s : State) (t : String) (a : Bool)
    (hne : t ≠ s.currentPage) (hp : s.pages = querySelectorAll s.doc "page")
    (hta : TriggersApart s.doc) (j : Nat) (hj : isPageAt s.doc j = true) :
    activeAt (navigateToPage s t a).doc j = decide (getElementById s.doc t = some j) := by
  have hmem := (isPageAt_iff_mem_pages s hp j).1 hj
  unfold isPageAt at hj
  cases he : s.doc[j]? with
  | none => simp [he] at hj
  | some e =>
    simp only [he] at hj
    have hnl := hta e (List.getElem?_mem he) hj
    unfold activeAt
    rw [getElem?_navigateToPage s t a hne j e he]
    simp only [hasClass_active_navigatedElement, hnl, hmem]
    by_cases h2 : getElementById s.doc t = some j <;> simp [h2]

theorem getElementById_lt (d : Document) (t : String) (i : Nat)
    (h : getElementById d t = some i) : i < d.length := by
  unfold getElementById at h
  split at h
  · cases h
  · obtain ⟨⟨e, he, _⟩, _⟩ := (indexWhere_eq_some _ _ _).1 h
    exact (List.getElem?_eq_some.1 he).1

/-! ## The invariant of reachable states -/

theorem Inv.of_eq {s s1 : State} (h : Inv s) (hd : s1.doc = s.doc) (hp : s1.pages = s.pages)
    (hc : s1.currentPage = s.currentPage) : Inv s1 := by
  unfold Inv at *
  rw [hd, hp, hc]
  exact h

theorem Inv.construct (doc : Document) (h : History) (now scrollTop : Nat)
    (timers : List Timer) : Inv (PageManager.new doc h now scrollTop timers) := by
  have hs := sameShape_showPage doc "home"
  refine ⟨?_, ?_⟩
  · exact (querySelectorAll_page_congr _ _ hs).symm
  · intro i e hi he _
    simp only [PageManager.new] at hi he
    rw [getElementById_congr _ _ hs] at hi
    rw [getElem?_showPage, if_pos hi] at he
    cases h0 : doc[i]? with
    | none => simp [h0] at he
    | some e0 =>
      simp only [h0, Option.map_some', Option.some.injEq] at he
      subst he
      simp [hasClass_classAdd]

theorem Inv.startup (doc : Document) (h : History) (now scrollTop : Nat)
    (timers : List Timer) : Inv (domContentLoaded doc h now scrollTop timers) := by
  unfold domContentLoaded
  simp only
  split
  · exact (Inv.construct doc h now scrollTop timers).of_eq rfl rfl rfl
  · exact Inv.construct doc h now scrollTop timers

theorem Inv.navigate {s : State} (h : Inv s) (t : String) (a : Bool) :
    Inv (navigateToPage s t a) := by
  by_cases hne : t = s.currentPage
  · unfold navigateToPage; rw [if_pos hne]; exact h
  · have hs := sameShape_navigateToPage s t a
    refine ⟨?_, ?_⟩
    · rw [pages_navigateToPage, h.1]
      exact (querySelectorAll_page_congr _ _ hs).symm
    · intro i e hi he hnl
      rw [currentPage_navigateToPage, getElementById_congr _ _ hs] at hi
      have hlt := getElementById_lt _ _ _ hi
      obtain ⟨e0, he0⟩ : ∃ e0, s.doc[i]? = some e0 :=
        ⟨s.doc[i], List.getElem?_eq_getElem hlt⟩
      rw [getElem?_navigateToPage s t a hne i e0 he0] at he
      have he1 : e = navigatedElement s t i e0 := (Option.some.inj he).symm
      have hshape := hs.shape_getElem? i
      rw [getElem?_navigateToPage s t a hne i e0 he0, he0] at hshape
      have hnl0 : e0.hasClass "nav-link" = false := by
        have := congrArg (fun x => x.2.2.1) (Option.some.inj hshape)
        simp only [Element.shape] at this
        rw [← this, ← he1]; exact hnl
      rw [he1, hasClass_active_navigatedElement]
      simp [hnl0, hi]

theorem Inv.modifyStyle {s : State} (h : Inv s) (f : Element → Element)
    (hs : ∀ e, (f e).shape = e.shape) (hc : ∀ e, (f e).hasClass "active" = e.hasClass "active")
    (i : Nat) (s1 : State) (hd : s1.doc = modifyAt f i s.doc) (hp : s1.pages = s.pages)
    (hcp : s1.currentPage = s.currentPage) : Inv s1 := by
  have hss : SameShape s1.doc s.doc := by rw [hd]; exact sameShape_modifyAt f hs i s.doc
  refine ⟨?_, ?_⟩
  · rw [hp, h.1]; exact (querySelectorAll_page_congr _ _ hss).symm
  · intro k e hk he hnl
    rw [hcp, getElementById_congr _ _ hss] at hk
    rw [hd, getElem?_modifyAt] at he
    cases h0 : s.doc[k]? with
    | none => simp [h0] at he
    | some e0 =>
      by_cases hki : k = i
      · simp only [hki, if_true] at he
        rw [← hki, h0] at he
        simp only [Option.map_some', Option.some.injEq] at he
        subst he
        have hn0 : e0.hasClass "nav-link" = false := by
          have := congrArg (fun x => x.2.2.1) (hs e0)
          simp only [Element.shape] at this
          rw [← this]; exact hnl
        rw [hc]; exact h.2 k e0 hk h0 hn0
      · rw [if_neg hki, h0] at he
        have := Option.some.inj he
        subst this
        exact h.2 k e0 hk h0 hnl

theorem Inv.runCallback {s : State} (h : Inv s) (cb : Callback) : Inv (runCallback s cb) := by
  cases cb with
  | fadeIn i => exact h.modifyStyle poseShown shape_poseShown (fun _ => rfl) i _ rfl rfl rfl
  | cleanup i =>
    exact h.modifyStyle clearTransition shape_clearTransition (fun _ => rfl) i _ rfl rfl rfl
  | initialNav hash => exact h.navigate hash false

theorem Inv.fireNext {s s1 : State} (h : Inv s) (hf : fireNext s = some s1) : Inv s1 := by
  unfold Vidhyartham.fireNext at hf
  cases hp : pickNext s.timers with
  | none => simp [hp] at hf
  | some p =>
    obtain ⟨t, rest⟩ := p
    simp only [hp, Option.some.injEq] at hf
    subst hf
    have h1 : Inv { s with timers := rest, now := max s.now t.due } := h.of_eq rfl rfl rfl
    exact h1.runCallback t.cb

theorem Inv.drainUntil {s : State} (h : Inv s) (limit : Nat) (inclusive : Bool) (fuel : Nat) :
    Inv (drainUntil limit inclusive fuel s) := by
  induction fuel generalizing s with
  | zero => exact h
  | succ n ih =>
    unfold Vidhyartham.drainUntil
    cases hp : pickNext s.timers with
    | none => exact h
    | some p =>
      obtain ⟨t, rest⟩ := p
      simp only
      split
      · cases hf : Vidhyartham.fireNext s with
        | none => exact h
        | some s1 => exact ih (h.fireNext hf)
      · exact h

theorem Inv.elapse {s : State} (h : Inv s) (dt : Nat) (inclusive : Bool) :
    Inv (elapse dt inclusive s) :=
  (h.drainUntil (s.now + dt) inclusive (timersCost s.timers)).of_eq rfl rfl rfl

theorem Inv.withHistory {s : State} (h : Inv s) (hist : History) :
    Inv { s with history := hist } := h.of_eq rfl rfl rfl

theorem Inv.historyBack {s : State} (h : Inv s) : Inv (historyBack s) := by
  unfold Vidhyartham.historyBack
  cases hb : s.history.back with
  | nil => exact h
  | cons e rest =>
    exact (h.withHistory _).navigate _ false

theorem Inv.onClick {s : State} (h : Inv s) (i : Nat) : Inv (onClick s i) := by
  unfold Vidhyartham.onClick
  split
  · split
    · split
      · exact h.navigate _ true
      · exact h
    · exact h
  · exact h

theorem Reachable.inv {s : State} (h : Reachable s) : Inv s := by
  induction h with
  | click i _ ih => exact ih.onClick i
  | construct doc h now scrollTop timers => exact Inv.construct doc h now scrollTop timers
  | startup doc h now scrollTop timers => exact Inv.startup doc h now scrollTop timers
  | navigate t a _ ih => exact ih.navigate t a
  | popstate st _ ih => exact ih.navigate _ false
  | back _ ih => exact ih.historyBack
  | timer _ hf ih => exact ih.fireNext hf
  | wait dt inclusive _ ih => exact ih.elapse dt inclusive
  | scroll y _ ih => exact ih.of_eq rfl rfl rfl

theorem onlyActivePage_of_navigate (s : State) (t : String) (a : Bool)
    (hne : t ≠ s.currentPage) (hp : s.pages = querySelectorAll s.doc "page")
    (hta : TriggersApart s.doc) (hsec : isSection s.doc t = true) :
    OnlyActivePage (navigateToPage s t a).doc t := by
  have hs := sameShape_navigateToPage s t a
  unfold isSection at hsec
  cases hg : getElementById s.doc t with
  | none => simp [hg] at hsec
  | some i =>
    simp only [hg] at hsec
    have hlt := getElementById_lt _ _ _ hg
    refine ⟨i, by rw [hs.length_eq]; exact hlt, by rw [getElementById_congr _ _ hs]; exact hg,
      by rw [hs.isPageAt_eq]; exact hsec, ?_⟩
    intro j _ hj
    rw [hs.isPageAt_eq] at hj
    rw [activeAt_navigateToPage_page s t a hne hp hta j hj, hg]
    simp [eq_comm]

theorem noActivePage_of_navigate (s : State) (t : String) (a : Bool)
    (hne : t ≠ s.currentPage) (hp : s.pages = querySelectorAll s.doc "page")
    (hta : TriggersApart s.doc) (hno : getElementById s.doc t = none) :
    NoActivePage (navigateToPage s t a).doc := by
  have hs := sameShape_navigateToPage s t a
  intro j _ hj
  rw [hs.isPageAt_eq] at hj
  rw [activeAt_navigateToPage_page s t a hne hp hta j hj, hno]
  simp

theorem getElementById_none_of_ids (d : Document) (t : String)
    (h : ∀ e, e ∈ d → e.id ≠ t) : getElementById d t = none := by
  unfold getElementById
  split
  · rfl
  · rw [indexWhere_eq_none]
    intro e he
    simpa using h e he

theorem entries_pushState_back (h : History) (st : Option String) (url : String) :
    (h.pushState st url).entries = h.back.reverse ++ [h.current, ⟨st, url⟩] := by
  simp [History.pushState, History.entries]

/-! ## Navigation: the specified properties -/

/-- C5 (idempotent re-navigation): `navigateToPage(t, addToHistory)` with `t` equal to
`currentPage` returns the state it was given, for every state and either value of
`addToHistory`: every element's classes (the `active` markers of pages and nav-links) and
styles, `currentPage`, the session history with its URL, the scroll position and the
pending timers are all unchanged. -/
theorem navigateToPage_current_is_noop (s : State) (addToHistory : Bool) :
    navigateToPage s s.currentPage addToHistory = s := by
  unfold navigateToPage
  rw [if_pos rfl]

/-- C7 (history effect of navigate): for a target `t` other than `currentPage`,
`navigateToPage(t, true)` makes a new entry with state `{page: t}` and URL `#t` the current
one, the former current entry becoming the nearest entry behind it, while
`navigateToPage(t, false)` leaves the session history (entries, current entry, URL) as it
was; in both cases `currentPage` becomes `t`. -/
theorem navigateToPage_history_effect (s : State) (t : String) (h : t ≠ s.currentPage) :
    (navigateToPage s t true).history =
        { back := s.history.current :: s.history.back,
          current := ⟨some t, "#" ++ t⟩,
          forward := [] } ∧
      (navigateToPage s t true).history.entries =
        s.history.back.reverse ++ [s.history.current, ⟨some t, "#" ++ t⟩] ∧
      (navigateToPage s t false).history = s.history ∧
      (navigateToPage s t true).currentPage = t ∧
      (navigateToPage s t false).currentPage = t := by
  refine ⟨?_, ?_, ?_, currentPage_navigateToPage s t true, currentPage_navigateToPage s t false⟩
  · rw [history_navigateToPage s t true h]; rfl
  · rw [history_navigateToPage s t true h, if_pos rfl, entries_pushState_back]
  · rw [history_navigateToPage s t false h]; rfl

/-- C4 (unknown target, amended): in a reachable state whose page containers are not nav-links,
for an identifier `t` that `getElementById` resolves to no element and that differs from
`currentPage`, `navigateToPage(t, addToHistory)` leaves no `.page` container carrying the
`active` marker and sets `currentPage` to `t`. -/
theorem navigateToPage_unknown_target (s : State) (t : String) (addToHistory : Bool)
    (hr : Reachable s) (hta : TriggersApart s.doc)
    (hno : getElementById s.doc t = none) (hne : t ≠ s.currentPage) :
    NoActivePage (navigateToPage s t addToHistory).doc ∧
      (navigateToPage s t addToHistory).currentPage = t :=
  ⟨noActivePage_of_navigate s t addToHistory hne hr.inv.1 hta hno,
    currentPage_navigateToPage s t addToHistory⟩

/-- C6 (default fallback on history pop, amended): in a reachable state where `home` names
a page container and page containers are not nav-links, a `popstate` event with a null state runs
`navigateToPage('home', false)`; afterwards `currentPage` is `home`, the `home` container
carries the `active` marker, and the session history is what it was (nothing pushed). -/
theorem popstate_null_goes_home (s : State) (hr : Reachable s)
    (hta : TriggersApart s.doc) (hhome : isSection s.doc "home" = true) :
    onPopState s none = navigateToPage s "home" false ∧
      (onPopState s none).currentPage = "home" ∧
      (∃ i, getElementById (onPopState s none).doc "home" = some i ∧
        isPageAt (onPopState s none).doc i = true ∧
        activeAt (onPopState s none).doc i = true) ∧
      (onPopState s none).history = s.history := by
  have hpop : onPopState s none = navigateToPage s "home" false := rfl
  have hs := sameShape_navigateToPage s "home" false
  have hinv : Inv (navigateToPage s "home" false) := hr.inv.navigate "home" false
  have hcur := currentPage_navigateToPage s "home" false
  refine ⟨hpop, by rw [hpop]; exact hcur, ?_, ?_⟩
  · rw [hpop]
    unfold isSection at hhome
    cases hg : getElementById s.doc "home" with
    | none => simp [hg] at hhome
    | some i =>
      simp only [hg] at hhome
      have hg1 : getElementById (navigateToPage s "home" false).doc "home" = some i := by
        rw [getElementById_congr _ _ hs]; exact hg
      have hp1 : isPageAt (navigateToPage s "home" false).doc i = true := by
        rw [hs.isPageAt_eq]; exact hhome
      refine ⟨i, hg1, hp1, ?_⟩
      have hta1 := hs.triggersApart hta
      unfold isPageAt at hp1
      unfold activeAt
      cases he : (navigateToPage s "home" false).doc[i]? with
      | none => simp [he] at hp1
      | some e =>
        simp only [he] at hp1 ⊢
        have hnl := hta1 e (List.getElem?_mem he) hp1
        exact hinv.2 i e (by rw [hcur]; exact hg1) he hnl
  · rw [hpop]
    by_cases hc : "home" = s.currentPage
    · unfold navigateToPage; rw [if_pos hc]
    · rw [history_navigateToPage s "home" false hc]; rfl

/-- C3 (history round trip, amended): from a reachable state whose page containers are not
nav-links, in which `currentPage` is `p`, the container named `p` is the only page container
marked active and the current history entry carries `{page: p}`, with `p` other than
`services`: `navigateToPage('services', true)` followed by a back traversal (a `popstate`
event carrying the state of the entry behind the pushed one) leaves `currentPage` equal to
`p` and the container named `p` the only page container marked active; the traversal pushes
nothing: the entries are those present after the push, and the current entry is again the
one that was current at the start. -/
theorem history_round_trip (s : State) (p : String) (hr : Reachable s)
    (hta : TriggersApart s.doc) (hne : p ≠ "services") (hcur : s.currentPage = p)
    (hact : OnlyActivePage s.doc p) (hhist : s.history.current.state = some p) :
    (historyBack (navigateToPage s "services" true)).currentPage = p ∧
      OnlyActivePage (historyBack (navigateToPage s "services" true)).doc p ∧
      (historyBack (navigateToPage s "services" true)).history.entries =
        (navigateToPage s "services" true).history.entries ∧
      (historyBack (navigateToPage s "services" true)).history.current =
        s.history.current := by
  have hsc : "services" ≠ s.currentPage := by rw [hcur]; exact fun h => hne h.symm
  have hh := history_navigateToPage s "services" true hsc
  rw [if_pos rfl] at hh
  have hs1 := sameShape_navigateToPage s "services" true
  have hinv1 : Inv (navigateToPage s "services" true) := hr.inv.navigate "services" true
  have hc1 := currentPage_navigateToPage s "services" true
  -- the state in which the popstate handler runs
  have hback : historyBack (navigateToPage s "services" true) =
      navigateToPage
        { navigateToPage s "services" true with
          history := { back := s.history.back, current := s.history.current,
                       forward := [⟨some "services", "#" ++ "services"⟩] } } p false := by
    unfold historyBack
    rw [hh]
    simp only [History.pushState, onPopState, hhist]
  rw [hback]
  have hne2 : p ≠ ({ navigateToPage s "services" true with
          history := { back := s.history.back, current := s.history.current,
                       forward := [⟨some "services", "#" ++ "services"⟩] } } : State).currentPage := by
    show p ≠ (navigateToPage s "services" true).currentPage
    rw [hc1]; exact hne
  have hsec : isSection (navigateToPage s "services" true).doc p = true := by
    obtain ⟨i, _, hg, hpg, _⟩ := hact
    unfold isSection
    rw [getElementById_congr _ _ hs1, hg]
    simp only
    rw [hs1.isPageAt_eq]; exact hpg
  refine ⟨currentPage_navigateToPage _ p false, ?_, ?_, ?_⟩
  · exact onlyActivePage_of_navigate _ p false hne2 hinv1.1 (hs1.triggersApart hta) hsec
  · rw [history_navigateToPage _ p false hne2, hh]
    simp [History.entries, History.pushState]
  · rw [history_navigateToPage _ p false hne2]
    rfl

theorem getLast?_cons_getD (a d : String) (l : List String) :
    (a :: l).getLast?.getD d = l.getLast?.getD a := by
  cases l with
  | nil => rfl
  | cons b bs =>
    rw [List.getLast?_cons_cons]
    cases h : (b :: bs).getLast? with
    | none => simp at h
    | some x => rfl

theorem currentPage_navigateAll (s : State) (calls : List (String × Bool)) :
    (navigateAll s calls).currentPage =
      (calls.map Prod.fst).getLast?.getD s.currentPage := by
  induction calls generalizing s with
  | nil => rfl
  | cons c cs ih =>
    have := ih (navigateToPage s c.1 c.2)
    simp only [navigateAll, List.foldl_cons] at this ⊢
    rw [this, currentPage_navigateToPage, List.map_cons, getLast?_cons_getD]

theorem onlyActivePage_navigateAll (doc : Document) (s : State) (calls : List (String × Bool))
    (hinv : Inv s) (hs : SameShape s.doc doc) (hta : TriggersApart doc)
    (hone : OnlyActivePage s.doc s.currentPage)
    (hcalls : ∀ c, c ∈ calls → isSection doc c.1 = true) :
    OnlyActivePage (navigateAll s calls).doc (navigateAll s calls).currentPage := by
  induction calls generalizing s with
  | nil => exact hone
  | cons c cs ih =>
    simp only [navigateAll, List.foldl_cons]
    have hs1 : SameShape (navigateToPage s c.1 c.2).doc doc :=
      (sameShape_navigateToPage s c.1 c.2).trans hs
    refine ih (navigateToPage s c.1 c.2) (hinv.navigate c.1 c.2) hs1 ?_
      (fun x hx => hcalls x (List.mem_cons_of_mem c hx))
    rw [currentPage_navigateToPage]
    by_cases hc : c.1 = s.currentPage
    · have : navigateToPage s c.1 c.2 = s := by unfold navigateToPage; rw [if_pos hc]
      rw [this, hc]; exact hone
    · have hsec : isSection s.doc c.1 = true := by
        have h0 := hcalls c (List.mem_cons_self c cs)
        unfold isSection at h0 ⊢
        rw [getElementById_congr _ _ hs]
        cases hg : getElementById doc c.1 with
        | none => simp [hg] at h0
        | some i => simp only [hg] at h0 ⊢; rw [hs.isPageAt_eq]; exact h0
      exact onlyActivePage_of_navigate s c.1 c.2 hc hinv.1 (hs.triggersApart hta) hsec

theorem onlyActivePage_construct (doc : Document) (h : History) (now scrollTop : Nat)
    (timers : List Timer) (hhome : isSection doc "home" = true)
    (hmarkup : ∀ j, j < doc.length → isPageAt doc j = true → activeAt doc j = true →
      getElementById doc "home" = some j) :
    OnlyActivePage (PageManager.new doc h now scrollTop timers).doc "home" := by
  have hs := sameShape_showPage doc "home"
  show OnlyActivePage (showPage doc "home") "home"
  unfold isSection at hhome
  cases hg : getElementById doc "home" with
  | none => simp [hg] at hhome
  | some i =>
    simp only [hg] at hhome
    have hlt := getElementById_lt _ _ _ hg
    refine ⟨i, by rw [hs.length_eq]; exact hlt, by rw [getElementById_congr _ _ hs]; exact hg,
      by rw [hs.isPageAt_eq]; exact hhome, ?_⟩
    intro j hj hpj
    rw [hs.length_eq] at hj
    rw [hs.isPageAt_eq] at hpj
    unfold activeAt
    rw [getElem?_showPage, hg]
    by_cases hji : j = i
    · subst hji
      have : doc[j]? = some doc[j] := List.getElem?_eq_getElem hlt
      simp [this, hasClass_classAdd]
    · have hij : ¬ (some i = some j) := fun h => hji (Option.some.inj h).symm
      rw [if_neg hij]
      constructor
      · intro ha
        have := hmarkup j hj hpj ha
        rw [hg] at this
        exact absurd this hij
      · intro h; exact absurd h hji

/-- C2 (mutual exclusion, amended): take a document whose page containers are not
nav-links, in which `home` names a page container and no page container other than the
one named `home` carries the `active` marker in the markup. After `new PageManager()` and
after every call in any sequence of `navigateToPage` calls whose targets name page
containers, exactly one page container carries the `active` marker, it is the one named
by `currentPage`, and `currentPage` is the target of the latest call (`home` when there
has been none). -/
theorem exactly_one_active_page (doc : Document) (h : History) (now scrollTop : Nat)
    (timers : List Timer) (calls : List (String × Bool)) (k : Nat)
    (hta : TriggersApart doc) (hhome : isSection doc "home" = true)
    (hmarkup : ∀ j, j < doc.length → isPageAt doc j = true → activeAt doc j = true →
      getElementById doc "home" = some j)
    (hcalls : ∀ c, c ∈ calls → isSection doc c.1 = true) :
    OnlyActivePage (navigateAll (PageManager.new doc h now scrollTop timers) (calls.take k)).doc
        (navigateAll (PageManager.new doc h now scrollTop timers) (calls.take k)).currentPage ∧
      (navigateAll (PageManager.new doc h now scrollTop timers) (calls.take k)).currentPage =
        ((calls.take k).map Prod.fst).getLast?.getD "home" := by
  refine ⟨?_, currentPage_navigateAll _ _⟩
  exact onlyActivePage_navigateAll doc _ (calls.take k)
    (Inv.construct doc h now scrollTop timers) (sameShape_showPage doc "home") hta
    (onlyActivePage_construct doc h now scrollTop timers hhome hmarkup)
    (fun c hc => hcalls c (List.mem_of_mem_take hc))

/-- C2, as stated, fails: on a document whose markup marks both `home` and `services`
active (page containers are not nav-links, `home` names a page container), two page
containers carry the `active` marker right after `new PageManager()`. -/
theorem exactly_one_active_page_fails_on_markup :
    TriggersApart twoActiveDoc ∧ isSection twoActiveDoc "home" = true ∧
      isSection twoActiveDoc "services" = true ∧ isSection twoActiveDoc "contact" = true ∧
      (PageManager.new twoActiveDoc (freshHistory "") 0 0 []).currentPage = "home" ∧
      activeAt (PageManager.new twoActiveDoc (freshHistory "") 0 0 []).doc 0 = true ∧
      activeAt (PageManager.new twoActiveDoc (freshHistory "") 0 0 []).doc 1 = true ∧
      ¬ OnlyActivePage (PageManager.new twoActiveDoc (freshHistory "") 0 0 []).doc
          (PageManager.new twoActiveDoc (freshHistory "") 0 0 []).currentPage := by
  refine ⟨by decide, by decide, by decide, by decide, rfl, by decide, by decide, ?_⟩
  rintro ⟨i, _, hg, _, hall⟩
  have hi : i = 0 := by
    have : getElementById (PageManager.new twoActiveDoc (freshHistory "") 0 0 []).doc
        (PageManager.new twoActiveDoc (freshHistory "") 0 0 []).currentPage = some 0 := by decide
    rw [this] at hg
    exact (Option.some.inj hg).symm
  subst hi
  have := (hall 1 (by decide) (by decide)).1 (by decide)
  exact absurd this (by decide)

/-- Witness for C2 (amended): the site's document, navigating to `services` and then to
`contact`. -/
theorem exactly_one_active_page_witness :
    TriggersApart siteDoc ∧ isSection siteDoc "home" = true ∧
      (∀ j, j < siteDoc.length → isPageAt siteDoc j = true → activeAt siteDoc j = true →
        getElementById siteDoc "home" = some j) ∧
      (∀ c, c ∈ [("services", true), ("contact", false)] → isSection siteDoc c.1 = true) ∧
      OnlyActivePage
        (navigateAll (PageManager.new siteDoc (freshHistory "") 0 0 [])
          ([("services", true), ("contact", false)].take 2)).doc
        (navigateAll (PageManager.new siteDoc (freshHistory "") 0 0 [])
          ([("services", true), ("contact", false)].take 2)).currentPage ∧
      (navigateAll (PageManager.new siteDoc (freshHistory "") 0 0 [])
          ([("services", true), ("contact", false)].take 2)).currentPage = "contact" :=
  ⟨by decide, by decide, by decide, by decide,
    exactly_one_active_page siteDoc (freshHistory "") 0 0 []
      [("services", true), ("contact", false)] 2 (by decide) (by decide) (by decide)
      (by decide)⟩

/-- Witness for C3: the site's page right after construction, with `p = home`. -/
theorem history_round_trip_witness :
    Reachable siteState ∧ TriggersApart siteState.doc ∧ "home" ≠ "services" ∧
      siteState.currentPage = "home" ∧ OnlyActivePage siteState.doc "home" ∧
      siteState.history.current.state = some "home" ∧
      (historyBack (navigateToPage siteState "services" true)).currentPage = "home" ∧
      OnlyActivePage (historyBack (navigateToPage siteState "services" true)).doc "home" ∧
      (historyBack (navigateToPage siteState "services" true)).history.entries =
        (navigateToPage siteState "services" true).history.entries ∧
      (historyBack (navigateToPage siteState "services" true)).history.current =
        siteState.history.current :=
  ⟨Reachable.construct _ _ _ _ _, by decide, by decide, by decide, by decide, by decide,
    history_round_trip siteState "home" (Reachable.construct _ _ _ _ _) (by decide)
      (by decide) (by decide) (by decide) (by decide)⟩

/-- Witness for C4: navigating the site's page to an identifier no element has. -/
theorem navigateToPage_unknown_target_witness :
    Reachable siteState ∧ TriggersApart siteState.doc ∧
      getElementById siteState.doc "nonexistent" = none ∧
      "nonexistent" ≠ siteState.currentPage ∧
      NoActivePage (navigateToPage siteState "nonexistent" true).doc ∧
      (navigateToPage siteState "nonexistent" true).currentPage = "nonexistent" :=
  ⟨Reachable.construct _ _ _ _ _, by decide, by decide, by decide,
    navigateToPage_unknown_target siteState "nonexistent" true (Reachable.construct _ _ _ _ _)
      (by decide) (by decide) (by decide)⟩

/-- Witness for C6: a null `popstate` while the site shows `services`. -/
theorem popstate_null_goes_home_witness :
    Reachable (navigateToPage siteState "services" true) ∧
      TriggersApart (navigateToPage siteState "services" true).doc ∧
      isSection (navigateToPage siteState "services" true).doc "home" = true ∧
      (onPopState (navigateToPage siteState "services" true) none).currentPage = "home" ∧
      activeAt (onPopState (navigateToPage siteState "services" true) none).doc 3 = true ∧
      (onPopState (navigateToPage siteState "services" true) none).history =
        (navigateToPage siteState "services" true).history :=
  ⟨Reachable.navigate _ _ (Reachable.construct _ _ _ _ _), by decide, by decide,
    (popstate_null_goes_home (navigateToPage siteState "services" true)
      (Reachable.navigate _ _ (Reachable.construct _ _ _ _ _)) (by decide) (by decide)).2.1,
    by decide,
    (popstate_null_goes_home (navigateToPage siteState "services" true)
      (Reachable.navigate _ _ (Reachable.construct _ _ _ _ _)) (by decide) (by decide)).2.2.2⟩

/-- Witness for C7: navigating the site's page from `home` to `contact`. -/
theorem navigateToPage_history_effect_witness :
    "contact" ≠ siteState.currentPage ∧
      (navigateToPage siteState "contact" true).history =
        { back := [⟨some "home", "#home"⟩], current := ⟨some "contact", "#contact"⟩,
          forward := [] } ∧
      (navigateToPage siteState "contact" false).history = siteState.history ∧
      (navigateToPage siteState "contact" true).currentPage = "contact" ∧
      (navigateToPage siteState "contact" false).currentPage = "contact" :=
  ⟨by decide, (navigateToPage_history_effect siteState "contact" (by decide)).1,
    (navigateToPage_history_effect siteState "contact" (by decide)).2.2.1,
    (navigateToPage_history_effect siteState "contact" (by decide)).2.2.2.1,
    (navigateToPage_history_effect siteState "contact" (by decide)).2.2.2.2⟩

/-! ## Startup -/

/-- C1 (the code at the failing input): the site's document loaded with URL fragment
`#contact`. The constructor has already replaced the URL by `#home` when the handler reads
`location.hash`, so the 100ms timer it registers navigates to `home`; once that timer has
fired no timer is pending, `currentPage` is `home`, the `home` container (index 3) carries
the `active` marker and the `contact` container (index 5) does not. -/
theorem initial_load_contact_fragment_shows_home :
    (freshHistory "#contact").locationHash = "#contact" ∧
      (domContentLoaded siteDoc (freshHistory "#contact") 0 0 []).history.locationHash =
        "#home" ∧
      (domContentLoaded siteDoc (freshHistory "#contact") 0 0 []).timers =
        [⟨100, Callback.initialNav "home"⟩] ∧
      (runAllTimers (domContentLoaded siteDoc (freshHistory "#contact") 0 0 [])).timers = [] ∧
      (runAllTimers (domContentLoaded siteDoc (freshHistory "#contact") 0 0 [])).currentPage =
        "home" ∧
      getElementById
        (runAllTimers (domContentLoaded siteDoc (freshHistory "#contact") 0 0 [])).doc
        "home" = some 3 ∧
      getElementById
        (runAllTimers (domContentLoaded siteDoc (freshHistory "#contact") 0 0 [])).doc
        "contact" = some 5 ∧
      activeAt (runAllTimers (domContentLoaded siteDoc (freshHistory "#contact") 0 0 [])).doc
        3 = true ∧
      activeAt (runAllTimers (domContentLoaded siteDoc (freshHistory "#contact") 0 0 [])).doc
        5 = false := by
  decide

/-! ## Timers -/

theorem pickNext_eq_none (ts : List Timer) : pickNext ts = none ↔ ts = [] := by
  cases ts with
  | nil => simp [pickNext]
  | cons t ts =>
    simp only [pickNext]
    cases pickNext ts with
    | none => simp
    | some p => obtain ⟨u, rest⟩ := p; simp only; split <;> simp

theorem pickNext_perm (ts : List Timer) (u : Timer) (rest : List Timer)
    (h : pickNext ts = some (u, rest)) : ts.Perm (u :: rest) := by
  induction ts generalizing u rest with
  | nil => simp [pickNext] at h
  | cons t ts ih =>
    simp only [pickNext] at h
    cases hp : pickNext ts with
    | none =>
      have hnil := (pickNext_eq_none ts).1 hp
      simp only [hp, Option.some.injEq, Prod.mk.injEq] at h
      obtain ⟨rfl, rfl⟩ := h
      rw [hnil]
    | some p =>
      obtain ⟨u1, rest1⟩ := p
      simp only [hp] at h
      split at h
      · simp only [Option.some.injEq, Prod.mk.injEq] at h
        obtain ⟨rfl, rfl⟩ := h
        exact List.Perm.refl _
      · simp only [Option.some.injEq, Prod.mk.injEq] at h
        obtain ⟨rfl, rfl⟩ := h
        exact ((ih u1 rest1 hp).cons t).trans (List.Perm.swap u1 t rest1)

theorem pickNext_cons (t : Timer) (ts : List Timer) :
    pickNext (t :: ts) =
      match pickNext ts with
      | none => some (t, [])
      | some (u, rest) => if t.due ≤ u.due then some (t, ts) else some (u, t :: rest) := rfl

theorem pickNext_append_last (pre : List Timer) (c u : Timer) (rest : List Timer)
    (hle : ∀ t, t ∈ pre → t.due ≤ c.due) (h : pickNext pre = some (u, rest)) :
    pickNext (pre ++ [c]) = some (u, rest ++ [c]) := by
  induction pre generalizing u rest with
  | nil => simp [pickNext] at h
  | cons t ts ih =>
    rw [pickNext_cons] at h
    rw [List.cons_append, pickNext_cons]
    cases hp : pickNext ts with
    | none =>
      have hnil := (pickNext_eq_none ts).1 hp
      simp only [hp, Option.some.injEq, Prod.mk.injEq] at h
      obtain ⟨rfl, rfl⟩ := h
      subst hnil
      have : t.due ≤ c.due := hle t (List.mem_singleton.2 rfl)
      simp [pickNext, this]
    | some p =>
      obtain ⟨u1, rest1⟩ := p
      rw [ih u1 rest1 (fun x hx => hle x (List.mem_cons_of_mem t hx)) hp]
      simp only [hp] at h
      simp only
      split at h
      · rename_i hdue
        simp only [Option.some.injEq, Prod.mk.injEq] at h
        obtain ⟨rfl, rfl⟩ := h
        simp [hdue]
      · rename_i hdue
        simp only [Option.some.injEq, Prod.mk.injEq] at h
        obtain ⟨rfl, rfl⟩ := h
        simp [hdue]

theorem pickNext_singleton (c : Timer) : pickNext [c] = some (c, []) := rfl

theorem timers_runCallback_animation (s : State) (cb : Callback) (h : cb.isAnimation = true) :
    (runCallback s cb).timers = s.timers ∧ (runCallback s cb).now = s.now := by
  cases cb with
  | fadeIn i => exact ⟨rfl, rfl⟩
  | cleanup i => exact ⟨rfl, rfl⟩
  | initialNav hash => simp [Callback.isAnimation] at h

theorem length_doc_runCallback_animation (s : State) (cb : Callback)
    (h : cb.isAnimation = true) : (runCallback s cb).doc.length = s.doc.length := by
  cases cb with
  | fadeIn i => exact modifyAt_length _ _ _
  | cleanup i => exact modifyAt_length _ _ _
  | initialNav hash => simp [Callback.isAnimation] at h

theorem fireNext_eq (s : State) (u : Timer) (rest : List Timer)
    (h : pickNext s.timers = some (u, rest)) :
    fireNext s = some (runCallback { s with timers := rest, now := max s.now u.due } u.cb) := by
  unfold fireNext
  rw [h]

theorem Settling.fire {i : Nat} {s s1 : State} (h : Settling i s)
    (hf : fireNext s = some s1) :
    Settling i s1 ∧ s1.timers.length + 1 = s.timers.length := by
  obtain ⟨hanim, e, he, hcase⟩ := h
  rcases hcase with ⟨pre, D, htim, hle, hsh⟩ | ⟨hnil, _⟩
  swap
  · have : pickNext s.timers = none := (pickNext_eq_none _).2 hnil
    unfold fireNext at hf
    rw [this] at hf
    cases hf
  cases hpre : pre with
  | nil =>
    subst hpre
    simp only [List.nil_append] at htim
    have hp : pickNext s.timers = some (⟨D, Callback.cleanup i⟩, []) := by
      rw [htim]; rfl
    rw [fireNext_eq s _ _ hp] at hf
    have hs1 := (Option.some.inj hf).symm
    have hshown : e.isShown := by
      rcases hsh with h | ⟨t, ht, _⟩
      · exact h
      · cases ht
    refine ⟨⟨?_, clearTransition e, ?_, Or.inr ⟨?_, ?_⟩⟩, ?_⟩
    · intro t ht; rw [hs1] at ht; cases ht
    · rw [hs1]
      show (modifyAt clearTransition i s.doc)[i]? = _
      rw [getElem?_modifyAt, if_pos rfl, he]; rfl
    · rw [hs1]; rfl
    · obtain ⟨h1, h2⟩ := hshown
      show Style.mk e.style.opacity e.style.transform "" = Style.settled
      rw [h1, h2]; rfl
    · rw [hs1, htim]; rfl
  | cons p ps =>
    have hne : pre ≠ [] := by rw [hpre]; exact List.cons_ne_nil _ _
    obtain ⟨⟨u, rest⟩, hp⟩ : ∃ x, pickNext pre = some x := by
      cases hx : pickNext pre with
      | none => exact absurd ((pickNext_eq_none _).1 hx) hne
      | some x => exact ⟨x, rfl⟩
    have hperm := pickNext_perm pre u rest hp
    have hp2 : pickNext s.timers = some (u, rest ++ [⟨D, Callback.cleanup i⟩]) := by
      rw [htim]; exact pickNext_append_last pre _ u rest hle hp
    rw [fireNext_eq s _ _ hp2] at hf
    have hs1 := (Option.some.inj hf).symm
    have hu : u ∈ pre := hperm.symm.subset (List.mem_cons_self u rest)
    have hrest : ∀ t, t ∈ rest → t ∈ pre :=
      fun t ht => hperm.symm.subset (List.mem_cons_of_mem u ht)
    have hsplit : ∀ t, t ∈ pre → t = u ∨ t ∈ rest := fun t ht => by
      have := hperm.subset ht
      simpa using this
    have hua : u.cb.isAnimation = true :=
      hanim u (by rw [htim]; exact List.mem_append_left _ hu)
    have htimers : s1.timers = rest ++ [⟨D, Callback.cleanup i⟩] := by
      rw [hs1]; exact (timers_runCallback_animation _ _ hua).1
    have hlen : s1.timers.length + 1 = s.timers.length := by
      rw [htimers, htim]
      have := hperm.length_eq
      simp only [List.length_append, List.length_cons, List.length_nil] at this ⊢
      omega
    have hanim1 : ∀ t, t ∈ s1.timers → t.cb.isAnimation = true := by
      intro t ht
      rw [htimers] at ht
      apply hanim t
      rw [htim]
      rcases List.mem_append.1 ht with h | h
      · exact List.mem_append_left _ (hrest t h)
      · exact List.mem_append_right _ h
    have hle1 : ∀ t, t ∈ rest → t.due ≤ D := fun t ht => hle t (hrest t ht)
    refine ⟨⟨hanim1, ?_⟩, hlen⟩
    cases hcb : u.cb with
    | initialNav hash => rw [hcb] at hua; simp [Callback.isAnimation] at hua
    | fadeIn j =>
      have hdoc : s1.doc = modifyAt poseShown j s.doc := by rw [hs1, hcb]; rfl
      by_cases hij : i = j
      · refine ⟨poseShown e, ?_, Or.inl ⟨rest, D, htimers, hle1, Or.inl ⟨rfl, rfl⟩⟩⟩
        rw [hdoc, getElem?_modifyAt, if_pos hij, he]; rfl
      · refine ⟨e, ?_, Or.inl ⟨rest, D, htimers, hle1, ?_⟩⟩
        · rw [hdoc, getElem?_modifyAt, if_neg hij, he]
        · rcases hsh with h | ⟨t, ht, htc⟩
          · exact Or.inl h
          · right
            rcases hsplit t ht with h | h
            · subst h
              rw [hcb] at htc
              exact absurd (Callback.fadeIn.inj htc).symm hij
            · exact ⟨t, h, htc⟩
    | cleanup j =>
      have hdoc : s1.doc = modifyAt clearTransition j s.doc := by rw [hs1, hcb]; rfl
      have hkeep : (e.isShown ∨ ∃ t, t ∈ pre ∧ t.cb = Callback.fadeIn i) →
          ∀ e1 : Element, e1.style.opacity = e.style.opacity →
            e1.style.transform = e.style.transform →
            (e1.isShown ∨ ∃ t, t ∈ rest ∧ t.cb = Callback.fadeIn i) := by
        intro hh e1 h1 h2
        rcases hh with h | ⟨t, ht, htc⟩
        · left
          unfold Element.isShown at h ⊢
          rw [h1, h2]; exact h
        · right
          rcases hsplit t ht with h | h
          · subst h
            rw [hcb] at htc
            cases htc
          · exact ⟨t, h, htc⟩
      by_cases hij : i = j
      · refine ⟨clearTransition e, ?_, Or.inl ⟨rest, D, htimers, hle1, hkeep hsh _ rfl rfl⟩⟩
        rw [hdoc, getElem?_modifyAt, if_pos hij, he]; rfl
      · refine ⟨e, ?_, Or.inl ⟨rest, D, htimers, hle1, hkeep hsh _ rfl rfl⟩⟩
        rw [hdoc, getElem?_modifyAt, if_neg hij, he]

theorem Settling.drain {i : Nat} (fuel : Nat) {s : State} (h : Settling i s)
    (hfuel : s.timers.length ≤ fuel) :
    (drain fuel s).timers = [] ∧
      ((drain fuel s).doc[i]?).map Element.style = some Style.settled := by
  induction fuel generalizing s with
  | zero =>
    have hnil : s.timers = [] := List.length_eq_zero.1 (Nat.le_zero.1 hfuel)
    obtain ⟨_, e, he, hcase⟩ := h
    rcases hcase with ⟨pre, D, htim, _, _⟩ | ⟨_, hst⟩
    · rw [hnil] at htim
      simp at htim
    · exact ⟨hnil, by show (s.doc[i]?).map Element.style = _; rw [he]; simp [hst]⟩
  | succ n ih =>
    unfold Vidhyartham.drain
    cases hf : fireNext s with
    | none =>
      simp only
      have hnil : s.timers = [] := by
        unfold fireNext at hf
        cases hp : pickNext s.timers with
        | none => exact (pickNext_eq_none _).1 hp
        | some x => simp [hp] at hf
      obtain ⟨_, e, he, hcase⟩ := h
      rcases hcase with ⟨pre, D, htim, _, _⟩ | ⟨_, hst⟩
      · rw [hnil] at htim
        simp at htim
      · exact ⟨hnil, by rw [he]; simp [hst]⟩
    | some s1 =>
      simp only
      obtain ⟨h1, hlen⟩ := h.fire hf
      exact ih h1 (by omega)

theorem timersCost_animation (ts : List Timer) (h : ∀ t, t ∈ ts → t.cb.isAnimation = true) :
    timersCost ts = ts.length := by
  induction ts with
  | nil => rfl
  | cons t ts ih =>
    have ht := h t (List.mem_cons_self t ts)
    have := ih (fun x hx => h x (List.mem_cons_of_mem t hx))
    unfold timersCost at this ⊢
    simp only [List.map_cons, List.sum_cons, List.length_cons, this]
    cases hc : t.cb with
    | fadeIn i => simp [Callback.cost]; omega
    | cleanup i => simp [Callback.cost]; omega
    | initialNav hash => rw [hc] at ht; simp [Callback.isAnimation] at ht

theorem Settling.runAllTimers {i : Nat} {s : State} (h : Settling i s) :
    (runAllTimers s).timers = [] ∧
      ((runAllTimers s).doc[i]?).map Element.style = some Style.settled := by
  unfold Vidhyartham.runAllTimers
  exact h.drain _ (by rw [timersCost_animation _ h.1])

theorem AnimationTimersOnly.afterFire {s s1 : State} (h : AnimationTimersOnly s)
    (hf : fireNext s = some s1) :
    AnimationTimersOnly s1 ∧ s1.doc.length = s.doc.length ∧
      timersCost s1.timers + 1 = timersCost s.timers := by
  unfold fireNext at hf
  cases hp : pickNext s.timers with
  | none => simp [hp] at hf
  | some x =>
    obtain ⟨u, rest⟩ := x
    simp only [hp, Option.some.injEq] at hf
    have hperm := pickNext_perm _ u rest hp
    have hu : u ∈ s.timers := hperm.symm.subset (List.mem_cons_self u rest)
    have hua := (h u hu).1
    have ht := timers_runCallback_animation
      { s with timers := rest, now := max s.now u.due } u.cb hua
    have hl := length_doc_runCallback_animation
      { s with timers := rest, now := max s.now u.due } u.cb hua
    rw [hf] at ht hl
    refine ⟨?_, hl, ?_⟩
    · intro t htm
      rw [ht.1] at htm
      have := h t (hperm.symm.subset (List.mem_cons_of_mem u htm))
      refine ⟨this.1, ?_⟩
      rw [ht.2]
      show t.due ≤ max s.now u.due + 500
      have := this.2
      omega
    · have hall : ∀ t, t ∈ s.timers → t.cb.isAnimation = true := fun t ht => (h t ht).1
      rw [timersCost_animation _ hall, ht.1]
      show timersCost rest + 1 = s.timers.length
      rw [timersCost_animation rest
        (fun t ht => hall t (hperm.symm.subset (List.mem_cons_of_mem u ht)))]
      have := hperm.length_eq
      simp only [List.length_cons] at this
      omega

theorem AnimationTimersOnly.afterDrainUntil {s : State} (h : AnimationTimersOnly s)
    (limit : Nat) (inclusive : Bool) (fuel : Nat) :
    AnimationTimersOnly (drainUntil limit inclusive fuel s) ∧
      (drainUntil limit inclusive fuel s).doc.length = s.doc.length ∧
      s.now ≤ (drainUntil limit inclusive fuel s).now := by
  induction fuel generalizing s with
  | zero => exact ⟨h, rfl, le_rfl⟩
  | succ n ih =>
    unfold Vidhyartham.drainUntil
    cases hp : pickNext s.timers with
    | none => exact ⟨h, rfl, le_rfl⟩
    | some p =>
      obtain ⟨t, rest⟩ := p
      simp only
      split
      · cases hf : fireNext s with
        | none => exact ⟨h, rfl, le_rfl⟩
        | some s1 =>
          simp only
          obtain ⟨h1, hl, _⟩ := h.afterFire hf
          obtain ⟨h2, hl2, hn2⟩ := ih h1
          refine ⟨h2, hl2.trans hl, le_trans ?_ hn2⟩
          rw [fireNext_eq s t rest hp] at hf
          have hperm := pickNext_perm _ t rest hp
          have hta := (h t (hperm.symm.subset (List.mem_cons_self t rest))).1
          have := (timers_runCallback_animation
            { s with timers := rest, now := max s.now t.due } t.cb hta).2
          rw [Option.some.inj hf] at this
          rw [this]
          exact le_max_left _ _
      · exact ⟨h, rfl, le_rfl⟩

theorem AnimationTimersOnly.afterElapse {s : State} (h : AnimationTimersOnly s)
    (dt : Nat) (inclusive : Bool) :
    AnimationTimersOnly (elapse dt inclusive s) ∧
      (elapse dt inclusive s).doc.length = s.doc.length := by
  obtain ⟨h1, hl, _⟩ := h.afterDrainUntil (s.now + dt) inclusive (timersCost s.timers)
  refine ⟨?_, hl⟩
  intro t ht
  have := h1 t ht
  refine ⟨this.1, ?_⟩
  show t.due ≤ max (Vidhyartham.drainUntil (s.now + dt) inclusive (timersCost s.timers) s).now
    (s.now + dt) + 500
  have := this.2
  omega

theorem AnimationTimersOnly.animate {s : State} (h : AnimationTimersOnly s) (i : Nat)
    (hi : i < s.doc.length) :
    AnimationTimersOnly (animatePageTransition s (some i)) ∧
      (animatePageTransition s (some i)).doc.length = s.doc.length ∧
      Settling i (animatePageTransition s (some i)) := by
  have htim : (animatePageTransition s (some i)).timers =
      (s.timers ++ [⟨s.now + 50, Callback.fadeIn i⟩]) ++ [⟨s.now + 500, Callback.cleanup i⟩] :=
    rfl
  have hnow : (animatePageTransition s (some i)).now = s.now := rfl
  have hdoc : (animatePageTransition s (some i)).doc = modifyAt poseHidden i s.doc := rfl
  have hmem : ∀ t, t ∈ (animatePageTransition s (some i)).timers →
      t.cb.isAnimation = true ∧ t.due ≤ s.now + 500 := by
    intro t ht
    rw [htim] at ht
    simp only [List.mem_append, List.mem_singleton] at ht
    rcases ht with (ht | ht) | ht
    · exact h t ht
    · subst ht; exact ⟨rfl, by show s.now + 50 ≤ s.now + 500; omega⟩
    · subst ht; exact ⟨rfl, le_rfl⟩
  refine ⟨fun t ht => by rw [hnow]; exact hmem t ht, by rw [hdoc]; exact modifyAt_length _ _ _,
    fun t ht => (hmem t ht).1, poseHidden s.doc[i], ?_, Or.inl ⟨_, _, htim, ?_, Or.inr ?_⟩⟩
  · rw [hdoc, getElem?_modifyAt, if_pos rfl, List.getElem?_eq_getElem hi]; rfl
  · intro t ht
    simp only [List.mem_append, List.mem_singleton] at ht
    rcases ht with ht | ht
    · exact (h t ht).2
    · subst ht; show s.now + 50 ≤ s.now + 500; omega
  · exact ⟨⟨s.now + 50, Callback.fadeIn i⟩, by simp, rfl⟩

theorem settling_transitionsOn (i : Nat) (span : Nat × Bool) (spans : List (Nat × Bool))
    (s : State) (hi : i < s.doc.length) (h : AnimationTimersOnly s) :
    Settling i (transitionsOn i (span :: spans) s) := by
  induction spans generalizing s span with
  | nil =>
    obtain ⟨dt, inclusive⟩ := span
    obtain ⟨h1, hl⟩ := h.afterElapse dt inclusive
    exact (h1.animate i (by rw [hl]; exact hi)).2.2
  | cons x xs ih =>
    obtain ⟨dt, inclusive⟩ := span
    obtain ⟨h1, hl⟩ := h.afterElapse dt inclusive
    obtain ⟨h2, hl2, _⟩ := h1.animate i (by rw [hl]; exact hi)
    exact ih x _ (by rw [hl2, hl]; exact hi) h2

/-- C8 (overlapping transitions): take an element `i` of the document and a state whose
pending timers are animation callbacks due within 500ms. After any non-empty run of
`animatePageTransition` calls on `i`, each a span of time after the previous event (timers
firing in order of due time, ties in registration order, a timer due at the very moment of
a call firing before or after it), once every pending timer has fired none is left and the
style of `i` is opacity `1`, transform `translateY(0)` and an empty transition, the same as
after a single uninterrupted transition. For a null element the call returns the state
unchanged, so it writes no style and registers no timer. -/
theorem overlapping_transitions_settle (s : State) (i : Nat) (span : Nat × Bool)
    (spans : List (Nat × Bool)) (hi : i < s.doc.length) (h : AnimationTimersOnly s) :
    (runAllTimers (transitionsOn i (span :: spans) s)).timers = [] ∧
      ((runAllTimers (transitionsOn i (span :: spans) s)).doc[i]?).map Element.style =
        some ⟨"1", "translateY(0)", ""⟩ ∧
      ((runAllTimers (transitionsOn i (span :: spans) s)).doc[i]?).map Element.style =
        ((runAllTimers (transitionsOn i [span] s)).doc[i]?).map Element.style ∧
      animatePageTransition s none = s := by
  have h1 := (settling_transitionsOn i span spans s hi h).runAllTimers
  have h2 := (settling_transitionsOn i span [] s hi h).runAllTimers
  exact ⟨h1.1, h1.2, h1.2.trans h2.2.symm, rfl⟩

/-- Witness for C8: on the site's page, three transitions of the `home` container started
0ms, 30ms and 470ms apart, so that the callbacks of the three overlap. -/
theorem overlapping_transitions_settle_witness :
    3 < siteState.doc.length ∧ AnimationTimersOnly siteState ∧
      (runAllTimers
        (transitionsOn 3 [(0, true), (30, false), (470, true)] siteState)).timers = [] ∧
      ((runAllTimers
        (transitionsOn 3 [(0, true), (30, false), (470, true)] siteState)).doc[3]?).map
          Element.style = some ⟨"1", "translateY(0)", ""⟩ :=
  ⟨by decide, by decide,
    (overlapping_transitions_settle siteState 3 (0, true) [(30, false), (470, true)]
      (by decide) (by decide)).1,
    (overlapping_transitions_settle siteState 3 (0, true) [(30, false), (470, true)]
      (by decide) (by decide)).2.1⟩

/-! ## Regular expressions -/

theorem matchPieces_nil (cs : List Char) : matchPieces [] cs = true ↔ cs = [] := by
  simp [matchPieces]

theorem matchPieces_cons (p : Piece) (ps : List Piece) (cs : List Char) :
    matchPieces (p :: ps) cs = true ↔
      ∃ a b, cs = a ++ b ∧ p.min ≤ a.length ∧ withinMax p.max a.length = true ∧
        (∀ c, c ∈ a → p.cls c = true) ∧ matchPieces ps b = true := by
  simp only [matchPieces, List.any_eq_true, List.mem_range, Bool.and_eq_true,
    decide_eq_true_eq, List.all_eq_true]
  constructor
  · rintro ⟨k, hk, ⟨⟨hmin, hmax⟩, hall⟩, hrest⟩
    have hlen : (cs.take k).length = k := by
      rw [List.length_take]; omega
    exact ⟨cs.take k, cs.drop k, (List.take_append_drop k cs).symm, by rw [hlen]; exact hmin,
      by rw [hlen]; exact hmax, hall, hrest⟩
  · rintro ⟨a, b, rfl, hmin, hmax, hall, hrest⟩
    refine ⟨a.length, by simp; omega, ⟨⟨hmin, hmax⟩, ?_⟩, ?_⟩
    · simpa using hall
    · simpa using hrest

theorem single_of_piece (ch : Char) (a : List Char) (hmin : 1 ≤ a.length)
    (hmax : withinMax (some 1) a.length = true) (hall : ∀ c, c ∈ a → (c == ch) = true) :
    a = [ch] := by
  simp only [withinMax, decide_eq_true_eq] at hmax
  match a, hmin, hmax, hall with
  | [x], _, _, hall =>
    have := hall x (List.mem_singleton.2 rfl)
    simp only [beq_iff_eq] at this
    rw [this]
  | [], hmin, _, _ => simp at hmin
  | _ :: _ :: _, _, hmax, _ => simp at hmax

theorem isValidEmail_iff_split (s : String) :
    isValidEmail s = true ↔
      ∃ a b c, s.toList = a ++ '@' :: (b ++ '.' :: c) ∧ a ≠ [] ∧ b ≠ [] ∧ c ≠ [] ∧
        (∀ x, x ∈ a → notSpaceOrAt x = true) ∧ (∀ x, x ∈ b → notSpaceOrAt x = true) ∧
        (∀ x, x ∈ c → notSpaceOrAt x = true) := by
  unfold isValidEmail emailRegex
  constructor
  · intro h
    obtain ⟨a, r1, hcs, ha1, -, haall, h⟩ := (matchPieces_cons _ _ _).1 h
    obtain ⟨x1, r2, hr1, hx1, hx1m, hx1a, h⟩ := (matchPieces_cons _ _ _).1 h
    obtain ⟨b, r3, hr2, hb1, -, hball, h⟩ := (matchPieces_cons _ _ _).1 h
    obtain ⟨x2, r4, hr3, hx2, hx2m, hx2a, h⟩ := (matchPieces_cons _ _ _).1 h
    obtain ⟨c, r5, hr4, hc1, -, hcall, h⟩ := (matchPieces_cons _ _ _).1 h
    have hr5 := (matchPieces_nil _).1 h
    have e1 := single_of_piece '@' x1 hx1 hx1m hx1a
    have e2 := single_of_piece '.' x2 hx2 hx2m hx2a
    subst hr5 e1 e2
    refine ⟨a, b, c, ?_, ?_, ?_, ?_, haall, hball, hcall⟩
    · rw [hcs, hr1, hr2, hr3, hr4]; simp
    · intro h0; subst h0; simp at ha1
    · intro h0; subst h0; simp at hb1
    · intro h0; subst h0; simp at hc1
  · rintro ⟨a, b, c, hs, ha, hb, hc, haall, hball, hcall⟩
    have pos : ∀ l : List Char, l ≠ [] → 1 ≤ l.length := fun l hl =>
      Nat.succ_le_of_lt (List.length_pos.2 hl)
    rw [hs]
    refine (matchPieces_cons _ _ _).2 ⟨a, '@' :: (b ++ '.' :: c), rfl, pos a ha, rfl, haall, ?_⟩
    refine (matchPieces_cons _ _ _).2 ⟨['@'], b ++ '.' :: c, rfl, le_rfl, rfl, ?_, ?_⟩
    · intro x hx; simp at hx; simp [hx]
    refine (matchPieces_cons _ _ _).2 ⟨b, '.' :: c, rfl, pos b hb, rfl, hball, ?_⟩
    refine (matchPieces_cons _ _ _).2 ⟨['.'], c, rfl, le_rfl, rfl, ?_, ?_⟩
    · intro x hx; simp at hx; simp [hx]
    refine (matchPieces_cons _ _ _).2 ⟨c, [], by simp, pos c hc, rfl, hcall, ?_⟩
    exact (matchPieces_nil _).2 rfl

theorem notSpaceOrAt_iff (x : Char) :
    notSpaceOrAt x = true ↔ isJsSpace x = false ∧ x ≠ '@' := by
  simp [notSpaceOrAt]

/-- C10 (email acceptance is the shape `local@domain.tld`): `isValidEmail(s)` is true
exactly when `s` contains no white space, contains exactly one `@`, has a non-empty part
before the `@`, and has after the `@` a part containing a `.` that is neither its first nor
its last character. -/
theorem isValidEmail_iff_shape (s : String) : isValidEmail s = true ↔ EmailShape s := by
  rw [isValidEmail_iff_split]
  unfold EmailShape
  constructor
  · rintro ⟨a, b, c, hs, ha, hb, hc, haall, hball, hcall⟩
    have hna : ∀ x, x ∈ a → isJsSpace x = false ∧ x ≠ '@' :=
      fun x hx => (notSpaceOrAt_iff x).1 (haall x hx)
    have hnb : ∀ x, x ∈ b → isJsSpace x = false ∧ x ≠ '@' :=
      fun x hx => (notSpaceOrAt_iff x).1 (hball x hx)
    have hnc : ∀ x, x ∈ c → isJsSpace x = false ∧ x ≠ '@' :=
      fun x hx => (notSpaceOrAt_iff x).1 (hcall x hx)
    have cnt : ∀ l : List Char, (∀ x, x ∈ l → isJsSpace x = false ∧ x ≠ '@') →
        l.count '@' = 0 := by
      intro l hl
      rw [List.count_eq_zero]
      intro hm
      exact (hl _ hm).2 rfl
    refine ⟨?_, ?_, a, b ++ '.' :: c, hs, ha, b.length, List.length_pos.2 hb, ?_, ?_⟩
    · intro x hx
      rw [hs] at hx
      simp only [List.mem_append, List.mem_cons] at hx
      rcases hx with h | h | h | h | h
      · exact (hna x h).1
      · subst h; decide
      · exact (hnb x h).1
      · subst h; decide
      · exact (hnc x h).1
    · rw [hs]
      simp only [List.count_append, List.count_cons, cnt a hna, cnt b hnb, cnt c hnc]
      decide
    · have := List.length_pos.2 hc
      simp only [List.length_append, List.length_cons]
      omega
    · rw [List.getElem?_append_right (le_refl _)]
      simp
  · rintro ⟨hsp, hcount, l, d, hs, hl, k, hk0, hk1, hdk⟩
    rw [hs] at hcount
    simp only [List.count_append, List.count_cons, beq_self_eq_true, if_true] at hcount
    have hcl : l.count '@' = 0 := by omega
    have hcd : d.count '@' = 0 := by omega
    have hnl : '@' ∉ l := List.count_eq_zero.1 hcl
    have hnd : '@' ∉ d := List.count_eq_zero.1 hcd
    have hklt : k < d.length := by omega
    have hd : d = d.take k ++ '.' :: d.drop (k + 1) := by
      have h1 : d.drop k = d[k] :: d.drop (k + 1) := List.drop_eq_getElem_cons hklt
      have h2 : d[k] = '.' := by
        rw [List.getElem?_eq_getElem hklt] at hdk
        exact Option.some.inj hdk
      rw [← h2, ← h1, List.take_append_drop]
    have hmem : ∀ x, x ∈ d → x ∈ s.toList := fun x hx => by
      rw [hs]; exact List.mem_append_right _ (List.mem_cons_of_mem _ hx)
    refine ⟨l, d.take k, d.drop (k + 1), by rw [← hd]; exact hs, hl, ?_, ?_, ?_, ?_, ?_⟩
    · intro h0
      have hlen : (d.take k).length = k := by rw [List.length_take]; omega
      rw [h0] at hlen
      simp only [List.length_nil] at hlen
      omega
    · intro h0
      have hlen : (d.drop (k + 1)).length = d.length - (k + 1) := List.length_drop _ _
      rw [h0] at hlen
      simp only [List.length_nil] at hlen
      omega
    · intro x hx
      rw [notSpaceOrAt_iff]
      exact ⟨hsp x (by rw [hs]; exact List.mem_append_left _ hx),
        fun h => hnl (h ▸ hx)⟩
    · intro x hx
      have hxd := List.mem_of_mem_take hx
      rw [notSpaceOrAt_iff]
      exact ⟨hsp x (hmem x hxd), fun h => hnd (h ▸ hxd)⟩
    · intro x hx
      have hxd := List.mem_of_mem_drop hx
      rw [notSpaceOrAt_iff]
      exact ⟨hsp x (hmem x hxd), fun h => hnd (h ▸ hxd)⟩

/-! ## Contact form -/

/-- C9 (validation failures are inline feedback): `validateField` is a total function
returning a boolean. It returns false exactly when the field is required and its trimmed
value is empty, or its type is `email`, its value is non-empty and `isValidEmail` rejects
it, or its type is `tel`, its value is non-empty and `isValidPhone` rejects it. When it
returns false, the parent's nodes are those left by `clearFieldError` followed by exactly
one new `error-message` node whose text is the message of the first failing check in that
order; when it returns true, they are those left by `clearFieldError` and nothing more. -/
theorem validateField_feedback (f : Field) :
    ((validateField f).1 = false ↔
        (f.required = true ∧ jsTrim f.value = "") ∨
        (f.type = "email" ∧ f.value ≠ "" ∧ isValidEmail f.value = false) ∨
        (f.type = "tel" ∧ f.value ≠ "" ∧ isValidPhone f.value = false)) ∧
      ((validateField f).1 = false →
        ∃ msg, firstFailure f = some msg ∧
          (validateField f).2.parent =
            (clearFieldError f).parent ++ [⟨["error-message"], msg, (errorDiv msg).cssText⟩] ∧
          (validateField f).2.parent.length = (clearFieldError f).parent.length + 1) ∧
      ((validateField f).1 = true →
        firstFailure f = none ∧ (validateField f).2.parent = (clearFieldError f).parent) := by
  have hr : (clearFieldError f).required = f.required := rfl
  have ht : (clearFieldError f).type = f.type := rfl
  have hv : (clearFieldError f).value = f.value := rfl
  unfold validateField firstFailure
  simp only [hr, ht, hv]
  by_cases h1 : f.required = true ∧ jsTrim f.value = ""
  · rw [if_pos h1, if_pos h1]
    refine ⟨⟨fun _ => Or.inl h1, fun _ => rfl⟩, fun _ => ⟨_, rfl, rfl, ?_⟩, fun h => ?_⟩
    · simp [showFieldError]
    · exact absurd h (by simp)
  · rw [if_neg h1, if_neg h1]
    by_cases h2 : f.type = "email" ∧ f.value ≠ "" ∧ isValidEmail f.value = false
    · rw [if_pos h2, if_pos h2]
      refine ⟨⟨fun _ => Or.inr (Or.inl h2), fun _ => rfl⟩, fun _ => ⟨_, rfl, rfl, ?_⟩,
        fun h => ?_⟩
      · simp [showFieldError]
      · exact absurd h (by simp)
    · rw [if_neg h2, if_neg h2]
      by_cases h3 : f.type = "tel" ∧ f.value ≠ "" ∧ isValidPhone f.value = false
      · rw [if_pos h3, if_pos h3]
        refine ⟨⟨fun _ => Or.inr (Or.inr h3), fun _ => rfl⟩, fun _ => ⟨_, rfl, rfl, ?_⟩,
          fun h => ?_⟩
        · simp [showFieldError]
        · exact absurd h (by simp)
      · rw [if_neg h3, if_neg h3]
        refine ⟨⟨fun h => absurd h (by simp), ?_⟩, fun h => absurd h (by simp),
          fun _ => ⟨rfl, rfl⟩⟩
        rintro (h | h | h)
        · exact absurd h h1
        · exact absurd h h2
        · exact absurd h h3

/-! ## The event loop fires everything it should -/

theorem pickNext_min (ts : List Timer) (u : Timer) (rest : List Timer)
    (h : pickNext ts = some (u, rest)) : ∀ t, t ∈ ts → u.due ≤ t.due := by
  induction ts generalizing u rest with
  | nil => simp [pickNext] at h
  | cons a as ih =>
    rw [pickNext_cons] at h
    cases hp : pickNext as with
    | none =>
      have hnil := (pickNext_eq_none as).1 hp
      simp only [hp, Option.some.injEq, Prod.mk.injEq] at h
      obtain ⟨rfl, rfl⟩ := h
      subst hnil
      intro t ht
      rw [List.mem_singleton.1 ht]
    | some p =>
      obtain ⟨u1, rest1⟩ := p
      simp only [hp] at h
      have hmin := ih u1 rest1 hp
      split at h
      · rename_i hdue
        simp only [Option.some.injEq, Prod.mk.injEq] at h
        obtain ⟨rfl, rfl⟩ := h
        intro t ht
        rcases List.mem_cons.1 ht with h1 | h1
        · rw [h1]
        · exact le_trans hdue (hmin t h1)
      · rename_i hdue
        simp only [Option.some.injEq, Prod.mk.injEq] at h
        obtain ⟨rfl, rfl⟩ := h
        intro t ht
        rcases List.mem_cons.1 ht with h1 | h1
        · rw [h1]; omega
        · exact hmin t h1

theorem timersCost_append (a b : List Timer) :
    timersCost (a ++ b) = timersCost a + timersCost b := by
  simp [timersCost]

theorem timersCost_perm {a b : List Timer} (h : a.Perm b) : timersCost a = timersCost b := by
  unfold timersCost
  exact (h.map _).sum_eq

theorem length_le_timersCost (ts : List Timer) : ts.length ≤ timersCost ts := by
  induction ts with
  | nil => simp [timersCost]
  | cons t ts ih =>
    have h1 : 1 ≤ t.cb.cost := by cases t.cb <;> simp [Callback.cost]
    unfold timersCost at ih ⊢
    simp only [List.map_cons, List.sum_cons, List.length_cons]
    omega

theorem timers_animatePageTransition_cost (s : State) (el : Option Nat) :
    timersCost (animatePageTransition s el).timers ≤ timersCost s.timers + 2 := by
  cases el with
  | none => exact Nat.le_add_right _ _
  | some i =>
    show timersCost ((s.timers ++ [⟨s.now + 50, Callback.fadeIn i⟩]) ++
      [⟨s.now + 500, Callback.cleanup i⟩]) ≤ _
    rw [timersCost_append, timersCost_append]
    simp [timersCost, Callback.cost]

theorem timers_navigateToPage_cost (s : State) (t : String) (a : Bool) :
    timersCost (navigateToPage s t a).timers ≤ timersCost s.timers + 2 := by
  unfold navigateToPage
  split
  · exact Nat.le_add_right _ _
  · exact timers_animatePageTransition_cost _ _

theorem timersCost_fireNext {s s1 : State} (hf : fireNext s = some s1) :
    timersCost s1.timers < timersCost s.timers := by
  unfold fireNext at hf
  cases hp : pickNext s.timers with
  | none => simp [hp] at hf
  | some x =>
    obtain ⟨u, rest⟩ := x
    simp only [hp, Option.some.injEq] at hf
    have hperm := timersCost_perm (pickNext_perm _ u rest hp)
    have hcons : timersCost (u :: rest) = u.cb.cost + timersCost rest := by
      simp [timersCost]
    rw [hperm, hcons, ← hf]
    cases hcb : u.cb with
    | fadeIn i => show timersCost rest < _; simp [Callback.cost]
    | cleanup i => show timersCost rest < _; simp [Callback.cost]
    | initialNav hash =>
      have := timers_navigateToPage_cost
        { s with timers := rest, now := max s.now u.due } hash false
      show timersCost (navigateToPage _ hash false).timers < _
      simp only [Callback.cost]
      have h2 : timersCost ({ s with timers := rest, now := max s.now u.due } : State).timers
          = timersCost rest := rfl
      omega

theorem drain_timers (fuel : Nat) (s : State) (h : timersCost s.timers ≤ fuel) :
    (drain fuel s).timers = [] := by
  induction fuel generalizing s with
  | zero =>
    have := length_le_timersCost s.timers
    have hnil : s.timers = [] := List.length_eq_zero.1 (by omega)
    exact hnil
  | succ n ih =>
    unfold drain
    cases hf : fireNext s with
    | none =>
      simp only
      unfold fireNext at hf
      cases hp : pickNext s.timers with
      | none => exact (pickNext_eq_none _).1 hp
      | some x => simp [hp] at hf
    | some s1 =>
      simp only
      have := timersCost_fireNext hf
      exact ih s1 (by omega)

/-- The run `runAllTimers` leaves no timer pending: its fuel is enough for the timers
registered on the way too. -/
theorem runAllTimers_timers (s : State) : (runAllTimers s).timers = [] :=
  drain_timers _ s le_rfl

theorem drainUntil_complete (limit : Nat) (inclusive : Bool) (fuel : Nat) (s : State)
    (h : timersCost s.timers ≤ fuel) :
    ∀ t, t ∈ (drainUntil limit inclusive fuel s).timers →
      ¬ (t.due < limit ∨ (inclusive = true ∧ t.due = limit)) := by
  induction fuel generalizing s with
  | zero =>
    have := length_le_timersCost s.timers
    have hnil : s.timers = [] := List.length_eq_zero.1 (by omega)
    intro t ht
    rw [show (drainUntil limit inclusive 0 s) = s from rfl, hnil] at ht
    cases ht
  | succ n ih =>
    unfold drainUntil
    cases hp : pickNext s.timers with
    | none =>
      simp only
      intro t ht
      rw [(pickNext_eq_none _).1 hp] at ht
      cases ht
    | some x =>
      obtain ⟨u, rest⟩ := x
      simp only
      split
      · cases hf : fireNext s with
        | none =>
          unfold fireNext at hf
          simp [hp] at hf
        | some s1 =>
          simp only
          have := timersCost_fireNext hf
          exact ih s1 (by omega)
      · rename_i hnot
        intro t ht hdue
        have hle := pickNext_min _ u rest hp t ht
        apply hnot
        rcases hdue with h1 | ⟨h1, h2⟩
        · exact Or.inl (by omega)
        · rcases Nat.lt_or_ge u.due limit with h3 | h3
          · exact Or.inl h3
          · exact Or.inr ⟨h1, by omega⟩

/-- After `elapse`, no pending timer is due within the span that has passed. -/
theorem elapse_complete (dt : Nat) (inclusive : Bool) (s : State) :
    ∀ t, t ∈ (elapse dt inclusive s).timers →
      ¬ (t.due < s.now + dt ∨ (inclusive = true ∧ t.due = s.now + dt)) :=
  drainUntil_complete (s.now + dt) inclusive (timersCost s.timers) s le_rfl

/-! ## Section containers that are also navigation links -/

/-- C3, as stated, fails: on a document whose `home` container is also a `.nav-link`, right
after `new PageManager()` every stated precondition holds (`currentPage` is `home`, the
`home` container is the only page container marked active, the current history entry
carries `{page: home}`), yet after `navigateToPage('services', true)` and a back traversal
the `.nav-link` loop has stripped `active` from the `home` container again: `currentPage`
is `home` but the `home` container (index 0) is not marked active. -/
theorem history_round_trip_fails_on_trigger_container :
    Reachable (PageManager.new homeTriggerDoc (freshHistory "") 0 0 []) ∧
      "home" ≠ "services" ∧
      (PageManager.new homeTriggerDoc (freshHistory "") 0 0 []).currentPage = "home" ∧
      OnlyActivePage (PageManager.new homeTriggerDoc (freshHistory "") 0 0 []).doc "home" ∧
      (PageManager.new homeTriggerDoc (freshHistory "") 0 0 []).history.current.state =
        some "home" ∧
      (historyBack (navigateToPage (PageManager.new homeTriggerDoc (freshHistory "") 0 0 [])
        "services" true)).currentPage = "home" ∧
      getElementById (historyBack (navigateToPage
        (PageManager.new homeTriggerDoc (freshHistory "") 0 0 []) "services" true)).doc
        "home" = some 0 ∧
      activeAt (historyBack (navigateToPage
        (PageManager.new homeTriggerDoc (freshHistory "") 0 0 []) "services" true)).doc
        0 = false ∧
      ¬ OnlyActivePage (historyBack (navigateToPage
        (PageManager.new homeTriggerDoc (freshHistory "") 0 0 []) "services" true)).doc
        "home" :=
  ⟨Reachable.construct _ _ _ _ _, by decide, by decide, by decide, by decide, by decide,
    by decide, by decide, by decide⟩

/-- C4, as stated, fails: on a document whose `services` container is also a `.nav-link`
with `data-page="ghost"`, the identifier `ghost` matches no element id and differs from
`currentPage`, yet after `navigateToPage('ghost')` the `.nav-link` loop has added `active`
to the `services` container (index 1): a section container carries the marker. -/
theorem navigateToPage_unknown_target_fails_on_trigger_container :
    Reachable (PageManager.new ghostTriggerDoc (freshHistory "") 0 0 []) ∧
      (∀ e, e ∈ (PageManager.new ghostTriggerDoc (freshHistory "") 0 0 []).doc →
        e.id ≠ "ghost") ∧
      getElementById (PageManager.new ghostTriggerDoc (freshHistory "") 0 0 []).doc "ghost" =
        none ∧
      "ghost" ≠ (PageManager.new ghostTriggerDoc (freshHistory "") 0 0 []).currentPage ∧
      isPageAt (navigateToPage (PageManager.new ghostTriggerDoc (freshHistory "") 0 0 [])
        "ghost" true).doc 1 = true ∧
      activeAt (navigateToPage (PageManager.new ghostTriggerDoc (freshHistory "") 0 0 [])
        "ghost" true).doc 1 = true ∧
      ¬ NoActivePage (navigateToPage (PageManager.new ghostTriggerDoc (freshHistory "") 0 0 [])
        "ghost" true).doc :=
  ⟨Reachable.construct _ _ _ _ _, by decide, by decide, by decide, by decide, by decide,
    by decide⟩

/-- C6, as stated, fails: on a document whose `home` container is also a `.nav-link`, in
the state reached by `new PageManager()` and `navigateToPage('services', true)`, a
`popstate` event with a null state runs `navigateToPage('home', false)`, which adds
`active` to the `home` container and then strips it again in the `.nav-link` loop:
`currentPage` is `home` although the `home` container (index 0) is not marked active. -/
theorem popstate_null_fails_on_trigger_container :
    Reachable (navigateToPage (PageManager.new homeTriggerDoc (freshHistory "") 0 0 [])
        "services" true) ∧
      isSection (navigateToPage (PageManager.new homeTriggerDoc (freshHistory "") 0 0 [])
        "services" true).doc "home" = true ∧
      (onPopState (navigateToPage (PageManager.new homeTriggerDoc (freshHistory "") 0 0 [])
        "services" true) none).currentPage = "home" ∧
      getElementById (onPopState (navigateToPage
        (PageManager.new homeTriggerDoc (freshHistory "") 0 0 []) "services" true) none).doc
        "home" = some 0 ∧
      isPageAt (onPopState (navigateToPage
        (PageManager.new homeTriggerDoc (freshHistory "") 0 0 []) "services" true) none).doc
        0 = true ∧
      activeAt (onPopState (navigateToPage
        (PageManager.new homeTriggerDoc (freshHistory "") 0 0 []) "services" true) none).doc
        0 = false :=
  ⟨Reachable.navigate _ _ (Reachable.construct _ _ _ _ _), by decide, by decide, by decide,
    by decide, by decide⟩

end Vidhyartham
